import Mathlib

/-!
Verification of the invoice-retrieval core in `facturas.py` (API-FACTURAS).

Python strings are modelled as lists of Unicode code points (`List Nat`);
`codes` converts a Lean string literal to that representation.  Calendar
dates (`datetime.date`) are modelled by the `Date` structure with the usual
lexicographic order; machine integers do not occur (all arithmetic is on
small natural numbers).  Browser interaction is abstracted as oracles
(environment functions) supplying exactly the observations the control flow
of the source consumes: whether a "more" button click succeeded, the list of
collected invoice links, whether a download event fired, and so on.  All
text-processing helpers (`_norm_txt`, `_parse_human_date_to_dateobj`,
`_parse_input_date`, the regex patterns and the `strptime` formats they rely
on) are translated directly from the source.
-/

namespace Facturas

/-- Code points of a Lean string literal; models a Python `str` value. -/
def codes (s : String) : List Nat := s.data.map Char.toNat

/-- Python whitespace recognised by `str.strip` / regex `\s` (ASCII part;
the source only ever meets ASCII whitespace). -/
def isSp (c : Nat) : Bool := c = 32 || c = 9 || c = 10 || c = 13 || c = 11 || c = 12

/-- ASCII digit. -/
def isDig (c : Nat) : Bool := 48 ≤ c && c ≤ 57

/-- Numeric value of an ASCII digit code point. -/
def digitVal (c : Nat) : Nat := c - 48

/-- `str.lower` restricted to the code points the source can meet:
ASCII letters plus the accented uppercase vowels and Ç/Ñ. -/
def lowerC (c : Nat) : Nat :=
  if 65 ≤ c ∧ c ≤ 90 then c + 32
  else if c = 193 then 225   -- Á → á
  else if c = 201 then 233   -- É → é
  else if c = 205 then 237   -- Í → í
  else if c = 211 then 243   -- Ó → ó
  else if c = 218 then 250   -- Ú → ú
  else if c = 199 then 231   -- Ç → ç
  else if c = 209 then 241   -- Ñ → ñ
  else c

/-- The chained `.replace` calls of `_norm_txt`: á é í ó ú ç → a e i o u c. -/
def replC (c : Nat) : Nat :=
  if c = 225 then 97
  else if c = 233 then 101
  else if c = 237 then 105
  else if c = 243 then 111
  else if c = 250 then 117
  else if c = 231 then 99
  else c

/-- `str.strip`: drop leading and trailing whitespace. -/
def stripCodes (cs : List Nat) : List Nat :=
  ((cs.dropWhile isSp).reverse.dropWhile isSp).reverse

/-- `_norm_txt` (facturas.py:254-263): strip, lowercase, unaccent. -/
def normTxt (cs : List Nat) : List Nat :=
  ((stripCodes cs).map lowerC).map replC

/-- Character class of the regex `[a-zñ]` used by the Spanish date patterns. -/
def isEsLetter (c : Nat) : Bool := (97 ≤ c && c ≤ 122) || c = 241

/-- Character class of the regex `[a-z]` used by the English date pattern. -/
def isEnLetter (c : Nat) : Bool := 97 ≤ c && c ≤ 122

/-- A `datetime.date`: year, month, day. -/
structure Date where
  y : Nat
  m : Nat
  d : Nat
deriving DecidableEq

/-- Python `date` comparison is lexicographic on (year, month, day). -/
def Date.lt (a b : Date) : Prop :=
  a.y < b.y ∨ (a.y = b.y ∧ (a.m < b.m ∨ (a.m = b.m ∧ a.d < b.d)))

def Date.le (a b : Date) : Prop := Date.lt a b ∨ a = b

instance (a b : Date) : Decidable (Date.lt a b) :=
  inferInstanceAs (Decidable (_ ∨ _))

instance (a b : Date) : Decidable (Date.le a b) :=
  inferInstanceAs (Decidable (_ ∨ _))

/-- Gregorian leap year, as implemented by `datetime`. -/
def isLeap (y : Nat) : Bool := y % 4 = 0 && (y % 100 ≠ 0 || y % 400 = 0)

/-- Number of days of a month, as implemented by `datetime`. -/
def daysInMonth (y m : Nat) : Nat :=
  match m with
  | 2 => if isLeap y then 29 else 28
  | 4 => 30
  | 6 => 30
  | 9 => 30
  | 11 => 30
  | _ => 31

/-- The arguments `datetime.date(y, m, d)` accepts without raising. -/
def dateValid (a : Date) : Prop :=
  1 ≤ a.y ∧ a.y ≤ 9999 ∧ 1 ≤ a.m ∧ a.m ≤ 12 ∧ 1 ≤ a.d ∧ a.d ≤ daysInMonth a.y a.m

instance (a : Date) : Decidable (dateValid a) :=
  inferInstanceAs (Decidable (_ ∧ _))

/-- `try: return date(y, m, d) except: return None` — the guarded constructor
used by `_parse_human_date_to_dateobj` and by `strptime`. -/
def mkValidDate (y m d : Nat) : Option Date :=
  if dateValid ⟨y, m, d⟩ then some ⟨y, m, d⟩ else none

/-- `date - timedelta(days=1)`: the previous calendar day. -/
def dateMinusOneDay (a : Date) : Date :=
  if 1 < a.d then ⟨a.y, a.m, a.d - 1⟩
  else if 1 < a.m then ⟨a.y, a.m - 1, daysInMonth a.y (a.m - 1)⟩
  else ⟨a.y - 1, 12, 31⟩

/-- Python's `date.max` = 9999-12-31, the sort fallback for undated entries. -/
def dateMax : Date := ⟨9999, 12, 31⟩

/-- Decimal digits of a number below 100, as Python prints a day (no padding). -/
def natDigits (n : Nat) : List Nat :=
  if n < 10 then [48 + n] else [48 + n / 10 % 10, 48 + n % 10]

/-- Two-digit zero-padded decimal rendering (`str(n).zfill(2)`). -/
def pad2 (n : Nat) : List Nat := [48 + n / 10 % 10, 48 + n % 10]

/-- Four-digit zero-padded decimal rendering. -/
def pad4 (n : Nat) : List Nat :=
  [48 + n / 1000 % 10, 48 + n / 100 % 10, 48 + n / 10 % 10, 48 + n % 10]

/-- Unpadded decimal rendering, fuel-structured so that it reduces inside
the kernel (the fuel `n` always dominates the number of digits). -/
def natDecimalAux : Nat → Nat → List Nat
  | 0, n => [48 + n % 10]
  | fuel + 1, n =>
    if n < 10 then [48 + n] else natDecimalAux fuel (n / 10) ++ [48 + n % 10]

/-- Unpadded decimal rendering of an arbitrary natural (`f-string {n}`). -/
def natDecimal (n : Nat) : List Nat := natDecimalAux n n

/-- The bilingual month lexicon `MONTHS` (facturas.py:197-207), in source
order.  The Python dict literal contains duplicate keys (`mar`, `may`,
`jun`, `jul` appear in both language sections); every duplicate carries the
same month value, so first-match lookup coincides with Python's last-wins
dict. -/
def MONTHS : List (List Nat × Nat) :=
  [(codes "ene", 1), (codes "enero", 1), (codes "feb", 2), (codes "febrero", 2),
   (codes "mar", 3), (codes "marzo", 3), (codes "abr", 4), (codes "abril", 4),
   (codes "may", 5), (codes "mayo", 5), (codes "jun", 6), (codes "junio", 6),
   (codes "jul", 7), (codes "julio", 7), (codes "ago", 8), (codes "agosto", 8),
   (codes "sep", 9), (codes "sept", 9), (codes "septi", 9), (codes "septiembre", 9),
   (codes "set", 9), (codes "setiembre", 9),
   (codes "oct", 10), (codes "octubre", 10), (codes "nov", 11), (codes "noviembre", 11),
   (codes "dic", 12), (codes "diciembre", 12),
   (codes "jan", 1), (codes "january", 1), (codes "february", 2),
   (codes "mar", 3), (codes "march", 3), (codes "apr", 4), (codes "april", 4),
   (codes "may", 5), (codes "june", 6), (codes "jun", 6),
   (codes "july", 7), (codes "jul", 7), (codes "aug", 8), (codes "august", 8),
   (codes "september", 9), (codes "october", 10), (codes "november", 11),
   (codes "dec", 12), (codes "december", 12)]

/-- `MONTHS.get(mon)`. -/
def monthsLookup (s : List Nat) : Option Nat :=
  (MONTHS.find? (fun p => decide (p.1 = s))).map (fun p => p.2)

/-!
### Regex machinery for `_parse_human_date_to_dateobj`

The three `re.search` patterns of the source are

  1. `(\d{1,2})\s+de\s+([a-zñ]+)\s+de\s+(\d{4})`
  2. `(\d{1,2})\s+([a-zñ]+)\s+(\d{4})`
  3. `([a-z]+)\s+(\d{1,2}),\s*(\d{4})`

On these patterns greedy matching without backtracking coincides with
Python's backtracking semantics: every variable-length piece (`\d{1,2}`,
`\s+`, `[a-zñ]+`, `\s*`) is followed by a piece drawn from a disjoint
character class (or by a literal outside the class), so the maximal munch is
the only viable one.  In particular the one-digit fallback of `\d{1,2}` can
never rescue a failed two-digit attempt, because the abandoned second digit
would then have to match `\s` or `,`.  `searchAt` tries successive start
positions exactly as `re.search` does.
-/

/-- `\d{1,2}` (greedy, see note above). -/
def digits12 : List Nat → Option (Nat × List Nat)
  | a :: b :: r =>
    if isDig a then
      if isDig b then some (10 * digitVal a + digitVal b, r)
      else some (digitVal a, b :: r)
    else none
  | [a] => if isDig a then some (digitVal a, []) else none
  | [] => none

/-- `\d{4}` (exactly four digits; trailing input is left alone). -/
def digits4 : List Nat → Option (Nat × List Nat)
  | a :: b :: c :: d :: r =>
    if isDig a && isDig b && isDig c && isDig d then
      some (((digitVal a * 10 + digitVal b) * 10 + digitVal c) * 10 + digitVal d, r)
    else none
  | _ => none

/-- `\s+` (at least one whitespace, greedily consumed). -/
def spaces1 : List Nat → Option (List Nat)
  | c :: r => if isSp c then some (r.dropWhile isSp) else none
  | [] => none

/-- `\s*`. -/
def spaces0 (cs : List Nat) : List Nat := cs.dropWhile isSp

/-- A character-class `+` group: at least one character, greedily consumed. -/
def letters1 (cls : Nat → Bool) (cs : List Nat) : Option (List Nat × List Nat) :=
  match cs.takeWhile cls with
  | [] => none
  | a :: t => some (a :: t, cs.dropWhile cls)

/-- The literal `de`. -/
def litDe : List Nat → Option (List Nat)
  | a :: b :: r => if a = 100 ∧ b = 101 then some r else none
  | _ => none

/-- A single literal character. -/
def litN (n : Nat) : List Nat → Option (List Nat)
  | c :: r => if c = n then some r else none
  | [] => none

/-- The part `de\s+([a-zñ]+)\s+de\s+(\d{4})` of pattern 1, anchored. -/
def p1AfterSp1 (cs : List Nat) : Option (List Nat × Nat) :=
  match litDe cs with
  | none => none
  | some r3 =>
  match spaces1 r3 with
  | none => none
  | some r4 =>
  match letters1 isEsLetter r4 with
  | none => none
  | some (nm, r5) =>
  match spaces1 r5 with
  | none => none
  | some r6 =>
  match litDe r6 with
  | none => none
  | some r7 =>
  match spaces1 r7 with
  | none => none
  | some r8 =>
  match digits4 r8 with
  | none => none
  | some (yr, _) => some (nm, yr)

/-- Pattern 1 anchored at the current position. -/
def matchP1At (cs : List Nat) : Option (Nat × List Nat × Nat) :=
  match digits12 cs with
  | none => none
  | some (d, r1) =>
  match spaces1 r1 with
  | none => none
  | some r2 =>
  match p1AfterSp1 r2 with
  | none => none
  | some (nm, yr) => some (d, nm, yr)

/-- Pattern 2 anchored at the current position. -/
def matchP2At (cs : List Nat) : Option (Nat × List Nat × Nat) :=
  match digits12 cs with
  | none => none
  | some (d, r1) =>
  match spaces1 r1 with
  | none => none
  | some r2 =>
  match letters1 isEsLetter r2 with
  | none => none
  | some (nm, r3) =>
  match spaces1 r3 with
  | none => none
  | some r4 =>
  match digits4 r4 with
  | none => none
  | some (yr, _) => some (d, nm, yr)

/-- Pattern 3 anchored at the current position. -/
def matchP3At (cs : List Nat) : Option (List Nat × Nat × Nat) :=
  match letters1 isEnLetter cs with
  | none => none
  | some (nm, r1) =>
  match spaces1 r1 with
  | none => none
  | some r2 =>
  match digits12 r2 with
  | none => none
  | some (d, r3) =>
  match litN 44 r3 with
  | none => none
  | some r4 =>
  match digits4 (spaces0 r4) with
  | none => none
  | some (yr, _) => some (nm, d, yr)

/-- `re.search`: leftmost match, trying each start position in turn. -/
def searchAt {α : Type} (m : List Nat → Option α) : List Nat → Option α
  | [] => m []
  | c :: r =>
    match m (c :: r) with
    | some v => some v
    | none => searchAt m r

/-!
### `strptime` formats

`datetime.strptime` compiles a format into an anchored regex that must
consume the whole input, then constructs the date (raising on an invalid
calendar combination).  The relevant directives compile to
`%Y ↦ \d\d\d\d`, `%m ↦ 1[0-2]|0[1-9]|[1-9]`,
`%d ↦ 3[01]|[12]\d|0[1-9]|[1-9]| [1-9]`.  As each alternation is followed by
a literal separator or end of input, at most one alternative can complete
the match, so the ordered first-match implementations below are faithful.
-/

/-- `%m`. -/
def strpMonth : List Nat → Option (Nat × List Nat)
  | a :: b :: r =>
    if a = 49 ∧ 48 ≤ b ∧ b ≤ 50 then some (10 + (b - 48), r)
    else if a = 48 ∧ 49 ≤ b ∧ b ≤ 57 then some (b - 48, r)
    else if 49 ≤ a ∧ a ≤ 57 then some (a - 48, b :: r)
    else none
  | [a] => if 49 ≤ a ∧ a ≤ 57 then some (a - 48, []) else none
  | [] => none

/-- `%d`. -/
def strpDay : List Nat → Option (Nat × List Nat)
  | a :: b :: r =>
    if a = 51 ∧ (b = 48 ∨ b = 49) then some (30 + (b - 48), r)
    else if (a = 49 ∨ a = 50) ∧ 48 ≤ b ∧ b ≤ 57 then some (10 * (a - 48) + (b - 48), r)
    else if a = 48 ∧ 49 ≤ b ∧ b ≤ 57 then some (b - 48, r)
    else if 49 ≤ a ∧ a ≤ 57 then some (a - 48, b :: r)
    else if a = 32 ∧ 49 ≤ b ∧ b ≤ 57 then some (b - 48, r)
    else none
  | [a] => if 49 ≤ a ∧ a ≤ 57 then some (a - 48, []) else none
  | [] => none

/-- `strptime(s, "%Y-%m-%d").date()`. -/
def strpYmdDash (cs : List Nat) : Option Date :=
  match digits4 cs with
  | none => none
  | some (yr, r1) =>
  match litN 45 r1 with
  | none => none
  | some r2 =>
  match strpMonth r2 with
  | none => none
  | some (mo, r3) =>
  match litN 45 r3 with
  | none => none
  | some r4 =>
  match strpDay r4 with
  | none => none
  | some (dy, r5) => if r5 = [] then mkValidDate yr mo dy else none

/-- `strptime(s, "%d/%m/%Y").date()`. -/
def strpDmYSlash (cs : List Nat) : Option Date :=
  match strpDay cs with
  | none => none
  | some (dy, r1) =>
  match litN 47 r1 with
  | none => none
  | some r2 =>
  match strpMonth r2 with
  | none => none
  | some (mo, r3) =>
  match litN 47 r3 with
  | none => none
  | some r4 =>
  match digits4 r4 with
  | none => none
  | some (yr, r5) => if r5 = [] then mkValidDate yr mo dy else none

/-- `strptime(s, "%Y/%m/%d").date()`. -/
def strpYmdSlash (cs : List Nat) : Option Date :=
  match digits4 cs with
  | none => none
  | some (yr, r1) =>
  match litN 47 r1 with
  | none => none
  | some r2 =>
  match strpMonth r2 with
  | none => none
  | some (mo, r3) =>
  match litN 47 r3 with
  | none => none
  | some r4 =>
  match strpDay r4 with
  | none => none
  | some (dy, r5) => if r5 = [] then mkValidDate yr mo dy else none

/-- `strptime(s, "%d-%m-%Y").date()`. -/
def strpDmYDash (cs : List Nat) : Option Date :=
  match strpDay cs with
  | none => none
  | some (dy, r1) =>
  match litN 45 r1 with
  | none => none
  | some r2 =>
  match strpMonth r2 with
  | none => none
  | some (mo, r3) =>
  match litN 45 r3 with
  | none => none
  | some r4 =>
  match digits4 r4 with
  | none => none
  | some (yr, r5) => if r5 = [] then mkValidDate yr mo dy else none

/-- `strptime(s, "%Y_%m_%d").date()` — used on the re-formatted invoice date
inside the download loop (facturas.py:845). -/
def strpY_M_D (cs : List Nat) : Option Date :=
  match digits4 cs with
  | none => none
  | some (yr, r1) =>
  match litN 95 r1 with
  | none => none
  | some r2 =>
  match strpMonth r2 with
  | none => none
  | some (mo, r3) =>
  match litN 95 r3 with
  | none => none
  | some r4 =>
  match strpDay r4 with
  | none => none
  | some (dy, r5) => if r5 = [] then mkValidDate yr mo dy else none

/-- The `for fmt in (...)` loop over the four numeric formats
(facturas.py:307-311), applied to `text.strip()`. -/
def isoChain (raw : List Nat) : Option Date :=
  match strpYmdDash raw with
  | some d => some d
  | none =>
  match strpDmYSlash raw with
  | some d => some d
  | none =>
  match strpYmdSlash raw with
  | some d => some d
  | none => strpDmYDash raw

/-- Pattern 3 stage of `_parse_human_date_to_dateobj`; falls through to the
numeric formats when the pattern does not fire or the word is not a month. -/
def parseP3 (t raw : List Nat) : Option Date :=
  match searchAt matchP3At t with
  | some (nm, d, yr) =>
    match monthsLookup nm with
    | some mo => mkValidDate yr mo d
    | none => isoChain raw
  | none => isoChain raw

/-- Pattern 2 stage of `_parse_human_date_to_dateobj`. -/
def parseP2 (t raw : List Nat) : Option Date :=
  match searchAt matchP2At t with
  | some (d, nm, yr) =>
    match monthsLookup nm with
    | some mo => mkValidDate yr mo d
    | none => parseP3 t raw
  | none => parseP3 t raw

/-- `_parse_human_date_to_dateobj` (facturas.py:265-312) on code points.
Patterns 1-3 run on the normalised text; when a pattern fires and its word
is a known month the guarded `date()` constructor decides the result (an
invalid calendar day yields `None`, with no further fallthrough); otherwise
the four `strptime` formats run on the stripped original text. -/
def parseHumanCodes (text : List Nat) : Option Date :=
  let t := normTxt text
  let raw := stripCodes text
  match searchAt matchP1At t with
  | some (d, nm, yr) =>
    match monthsLookup nm with
    | some mo => mkValidDate yr mo d
    | none => parseP2 t raw
  | none => parseP2 t raw

/-- `_parse_human_date_to_dateobj` on a Lean string literal. -/
def parseHumanDate (text : String) : Option Date := parseHumanCodes (codes text)

/-!
### `_parse_input_date` (facturas.py:209-243)
-/

/-- `re.fullmatch(r"\d{4}-\d{2}-\d{2}", s)` with the three captured numbers. -/
def matchYMDC : List Nat → Option (Nat × Nat × Nat)
  | [a, b, c, d, 45, e, f, 45, g, h] =>
    if isDig a && isDig b && isDig c && isDig d && isDig e && isDig f &&
        isDig g && isDig h then
      some (((digitVal a * 10 + digitVal b) * 10 + digitVal c) * 10 + digitVal d,
            digitVal e * 10 + digitVal f, digitVal g * 10 + digitVal h)
    else none
  | _ => none

/-- `re.fullmatch(r"\d{4}-\d{2}", s)` with the two captured numbers. -/
def matchYMC : List Nat → Option (Nat × Nat)
  | [a, b, c, d, 45, e, f] =>
    if isDig a && isDig b && isDig c && isDig d && isDig e && isDig f then
      some (((digitVal a * 10 + digitVal b) * 10 + digitVal c) * 10 + digitVal d,
            digitVal e * 10 + digitVal f)
    else none
  | _ => none

/-- The arguments `strptime(s, "%Y-%m")` accepts on a `\d{4}-\d{2}` string:
the month must be 01-12 and the year nonzero (year 0 is out of range). -/
def validYM (yr mo : Nat) : Prop := 1 ≤ yr ∧ 1 ≤ mo ∧ mo ≤ 12

instance (yr mo : Nat) : Decidable (validYM yr mo) :=
  inferInstanceAs (Decidable (_ ∧ _))

/-- The `ValueError` message raised for unparseable input; Python formats the
stripped string into it. -/
def invMsg (t : List Nat) : List Nat :=
  codes "Fecha inválida: " ++ t ++ codes " (usa YYYY-MM o YYYY-MM-DD)"

/-- `_parse_input_date(s, end=end)`: `Except` models raising `ValueError`. -/
def parse_input_date (s : Option (List Nat)) (isEnd : Bool) :
    Except (List Nat) (Option Date) :=
  match s with
  | none => .ok none
  | some str =>
    if str = [] then .ok none
    else
      let t := stripCodes str
      match matchYMDC t with
      | some (yr, mo, dy) =>
        if dateValid ⟨yr, mo, dy⟩ then .ok (some ⟨yr, mo, dy⟩)
        else .error (invMsg t)
      | none =>
        match matchYMC t with
        | some (yr, mo) =>
          if validYM yr mo then
            .ok (some (if isEnd then
                         (if mo = 12 then ⟨yr, 12, 31⟩
                          else dateMinusOneDay ⟨yr, mo + 1, 1⟩)
                       else ⟨yr, mo, 1⟩))
          else .error (invMsg t)
        | none => .error (invMsg t)

/-- The canonical `YYYY-MM` rendering of a year/month pair. -/
def fmtYM (yr mo : Nat) : List Nat := pad4 yr ++ 45 :: pad2 mo

/-- The canonical `YYYY-MM-DD` rendering of a date. -/
def fmtYMD (yr mo dy : Nat) : List Nat := pad4 yr ++ 45 :: pad2 mo ++ 45 :: pad2 dy

/-- A non-empty input string is well formed for `_parse_input_date` when its
stripped text has one of the two machine shapes with calendar-valid values. -/
def wellFormedInput (s : List Nat) : Bool :=
  (match matchYMDC (stripCodes s) with
   | some (yr, mo, dy) => decide (dateValid ⟨yr, mo, dy⟩)
   | none => false) ||
  (match matchYMC (stripCodes s) with
   | some (yr, mo) => decide (validYM yr mo)
   | none => false)

/-!
### Range filter and work queue (facturas.py:245-252, 771-786)
-/

/-- `_in_range_day(d, dfrom, dto)`. -/
def in_range_day (d : Date) (dfrom dto : Option Date) : Bool :=
  if (match dfrom with | some f => decide (Date.lt d f) | none => false) then false
  else if (match dto with | some t => decide (Date.lt t d) | none => false) then false
  else true

/-- A listing entry `(href, text)`, both Python strings. -/
def Item : Type := List Nat × List Nat

instance : DecidableEq Item := inferInstanceAs (DecidableEq (_ × _))

/-- The body of the filter loop: undated entries pass unconditionally, dated
entries pass exactly when in range. -/
def keepItem (dfrom dto : Option Date) (it : Item) : Bool :=
  match parseHumanCodes it.2 with
  | none => true
  | some dd => in_range_day dd dfrom dto

/-- `_sort_key`: the entry's parsed date, or `date.max` when undated. -/
def sortKey (it : Item) : Date := (parseHumanCodes it.2).getD dateMax

/-- The comparison `filtered.sort(key=_sort_key)` sorts by. -/
def queueLE (a b : Item) : Prop := Date.le (sortKey a) (sortKey b)

instance : DecidableRel queueLE := fun a b =>
  inferInstanceAs (Decidable (Date.le (sortKey a) (sortKey b)))

/-- The filter-and-sort step over collected entries (facturas.py:771-786).
Python's `list.sort` is stable; `List.insertionSort` with a `≤`-style
relation is the stable sort, so the two agree also on equal keys. -/
def buildWorkQueue (items : List Item) (dfrom dto : Option Date) : List Item :=
  List.insertionSort queueLE (items.filter (keepItem dfrom dto))

/-- `true` when no dated entry follows an undated one in the queue — the
reading of the claim that all undated entries are ordered last. -/
def undatedLastOK : List Item → Bool
  | [] => true
  | a :: l =>
    if (parseHumanCodes a.2).isNone then
      l.all (fun b => (parseHumanCodes b.2).isNone) && undatedLastOK l
    else undatedLastOK l

/-!
### The reveal loop `_expand_all_invoices_all_languages` (facturas.py:505-540)

The loop's interaction with the page in one round is: click attempt result,
entry count right after the attempt, and (only consulted when a click
happened) the entry count re-collected after the wait.  An environment
function supplies these observations per round index.  The embedding keeps
the remaining-round budget as fuel (`max_rounds - rounds`, the loop guard)
and returns the number of rounds executed.
-/

structure RoundObs where
  clicked : Bool
  count1 : Nat
  count2 : Nat

/-- Count observed at the point the plateau test reads it. -/
def newCount (o : RoundObs) : Nat := if o.clicked then o.count2 else o.count1

/-- One-to-one image of the `while rounds < max_rounds` body: `last` is
`last_count`, `i` the executed-round counter, fuel `max_rounds - i`. -/
def expandGo (env : Nat → RoundObs) : Nat → Nat → Nat → Nat
  | _, i, 0 => i
  | last, i, fuel + 1 =>
    let o := env i
    if o.clicked = false then
      if last < o.count1 then expandGo env o.count1 (i + 1) fuel else i + 1
    else
      if o.count2 ≤ last then i + 1
      else expandGo env o.count2 (i + 1) fuel

/-- `_expand_all_invoices_all_languages(target, max_rounds)`, returning the
number of rounds executed; `initCount` is the entry count collected before
the loop. -/
def expand_all_invoices_all_languages (env : Nat → RoundObs) (initCount maxRounds : Nat) :
    Nat :=
  expandGo env initCount 0 maxRounds

/-- The value of `last_count` before round `i`, assuming every earlier round
continued (on every continuing round the source updates `last_count` to the
count it just observed). -/
def lastSeq (env : Nat → RoundObs) (initCount : Nat) : Nat → Nat
  | 0 => initCount
  | i + 1 =>
    if lastSeq env initCount i < newCount (env i) then newCount (env i)
    else lastSeq env initCount i

/-- Whether round `i` takes a `continue` branch: the observed count grew
past `last_count`. -/
def continuesAt (env : Nat → RoundObs) (initCount i : Nat) : Bool :=
  lastSeq env initCount i < newCount (env i)

/-!
### The `from`-driven expansion loop (facturas.py:751-761)

`while True:` compute the oldest visible date; stop when it is strictly
before `dfrom`; otherwise click "more" (stop when the click fails) and
re-collect.  The environment supplies, for attempt `k`, the click result and
the item list collected after it.  `fromLoop` runs at most `fuel`
iterations; `none` means the loop was still running when the fuel ran out —
the source has no such bound, so `∀ fuel, fromLoop ... = none` states
non-termination.
-/

/-- `oldest_date_in_items` (facturas.py:741-748). -/
def oldest_date_in_items (items : List Item) : Option Date :=
  match (items.map (fun it => parseHumanCodes it.2)).reduceOption with
  | [] => none
  | d0 :: rest =>
    some (rest.foldl (fun acc x => if Date.lt x acc then x else acc) d0)

/-- One observation per expansion attempt: did `_click_any_more_button`
succeed, and what does `_collect_invoice_items` return afterwards. -/
def fromLoop (env : Nat → Bool × List Item) (dfrom : Date) :
    List Item → Nat → Nat → Option (List Item)
  | _, _, 0 => none
  | items, k, fuel + 1 =>
    let od := oldest_date_in_items items
    let needMore : Bool :=
      match od with
      | none => true
      | some o => decide (Date.le dfrom o)
    if needMore = false then some items
    else if (env k).1 = false then some items
    else fromLoop env dfrom (env k).2 (k + 1) fuel

/-!
### Per-item fetch, verify and download (facturas.py:821-943)

A work item's interaction with the page is summarised by `ItemEnv`: the
rendered document body text (input to `_extract_invoice_date`), `today`
(the `date.today()` fallback), whether any click attempt produced a
download event, the result of `download.save_as` (`.error msg` models the
caught exception whose `str(e)` would be recorded), and whether the
`Path(tmp).replace(...)` fallback succeeds.  `processItem` is the
straight-line body of the `for` loop for one item; `.error` models an
exception escaping the body (there is no per-item `try`, so it aborts the
whole run).
-/

structure ItemEnv where
  href : List Nat
  bodyText : List Nat
  today : Date
  downloadTriggered : Bool
  saveAs : Except (List Nat) Unit
  fallbackOk : Bool

/-- The run counters: `descargadas` and `errores` (href, message). -/
structure RunState where
  descargadas : Nat
  errores : List (List Nat × List Nat)
deriving DecidableEq

/-- `f"{d.year}_{str(d.month).zfill(2)}_{str(d.day).zfill(2)}"`
(facturas.py:841): the year is printed unpadded. -/
def fechaTexto (a : Date) : List Nat :=
  natDecimal a.y ++ 95 :: pad2 a.m ++ 95 :: pad2 a.d

/-- The `ValueError` text of a failed `strptime` re-parse. -/
def timeDataMsg (s : List Nat) : List Nat :=
  codes "time data " ++ s ++ codes " does not match format %Y_%m_%d"

/-- Fixed message recorded when no download event fires (facturas.py:920). -/
def noDownloadMsg : List Nat :=
  codes "No se pudo iniciar la descarga (timeout rápido)."

/-- One iteration of the download loop (facturas.py:821-943), from the point
where the invoice page is rendered.  `_extract_invoice_date` falls back to
`today` when the body has no parseable date; the resulting string is then
re-parsed with `strptime("%Y_%m_%d")` — which raises (aborting the run) when
the year prints to fewer than four digits. -/
def processItem (dfrom dto : Option Date) (env : ItemEnv) (st : RunState) :
    Except (List Nat) RunState :=
  let fecha := fechaTexto ((parseHumanCodes env.bodyText).getD env.today)
  match strpY_M_D fecha with
  | none => .error (timeDataMsg fecha)
  | some dReal =>
    if in_range_day dReal dfrom dto = false then .ok st
    else if env.downloadTriggered = false then
      .ok ⟨st.descargadas, st.errores ++ [(env.href, noDownloadMsg)]⟩
    else
      match env.saveAs with
      | .ok _ => .ok ⟨st.descargadas + 1, st.errores⟩
      | .error msg =>
        if env.fallbackOk then .ok ⟨st.descargadas + 1, st.errores⟩
        else .ok ⟨st.descargadas + 1, st.errores ++ [(env.href, msg)]⟩

/-- The whole download loop: items processed in order, first exception
aborts. -/
def runItems (dfrom dto : Option Date) : List ItemEnv → RunState →
    Except (List Nat) RunState
  | [], st => .ok st
  | e :: rest, st =>
    match processItem dfrom dto e st with
    | .ok st2 => runItems dfrom dto rest st2
    | .error msg => .error msg

/-!
### Top level of `descargar_facturas` (facturas.py:545-972)

The two `_parse_input_date` calls happen before the `try` block, so their
`ValueError` propagates to the caller as raised; every exception raised
inside the block is re-raised wrapped as
`"Error al descargar facturas: " + str(e)`.  Everything between — browser
automation, expansion, filtering, downloading — is abstracted as `body`, a
function of the parsed bounds that either returns a summary or raises. -/

structure RunSummary where
  estado : List Nat
  mensaje : List Nat
  descargadas : Nat
  errores : List (List Nat × List Nat)
deriving DecidableEq

/-- Python truthiness of the optional string arguments. -/
def truthyStr (s : Option (List Nat)) : Bool :=
  match s with
  | none => false
  | some cs => decide (cs ≠ [])

/-- `descargar_facturas(date_from, date_to, ...)` up to the abstracted body:
returns the body's summary, or raises (models lines 567-569 and 967-972). -/
def descargar_facturas (dateFrom dateTo : Option (List Nat))
    (body : Option Date → Option Date → Except (List Nat) RunSummary) :
    Except (List Nat) RunSummary :=
  match (if truthyStr dateFrom then parse_input_date dateFrom false else .ok none) with
  | .error e => .error e
  | .ok dfrom =>
    match (if truthyStr dateTo then parse_input_date dateTo true else .ok none) with
    | .error e => .error e
    | .ok dto =>
      match body dfrom dto with
      | .ok s => .ok s
      | .error e => .error (codes "Error al descargar facturas: " ++ e)

/-!
### Environments used by concrete witnesses
-/

/-- A listing whose "more" button always clicks and whose entries never
carry a parseable date — the C1 failing input. -/
def alwaysClickUndated : Nat → Bool × List Item := fun _ => (true, [])

/-- A page that keeps growing a little every round (for the reveal-loop
witness). -/
def plateauEnv : Nat → RoundObs := fun _ => ⟨false, 0, 0⟩

/-!
### The four bilingual renderings of one calendar date (spec §4.1)

`nm` is the month word; days are written unpadded as humans do, years with
their four digits. -/

/-- `"{d} de {nm} de {yyyy}"`. -/
def rEsLargo (d : Nat) (nm : List Nat) (yr : Nat) : List Nat :=
  natDigits d ++ 32 :: 100 :: 101 :: 32 :: (nm ++ 32 :: 100 :: 101 :: 32 :: pad4 yr)

/-- `"{d} {nm} {yyyy}"`. -/
def rCorto (d : Nat) (nm : List Nat) (yr : Nat) : List Nat :=
  natDigits d ++ 32 :: (nm ++ 32 :: pad4 yr)

/-- `"{nm} {d}, {yyyy}"`. -/
def rEn (nm : List Nat) (d yr : Nat) : List Nat :=
  nm ++ 32 :: (natDigits d ++ 44 :: 32 :: pad4 yr)

/-- `"{yyyy}-{mm}-{dd}"`. -/
def rIso (yr mo dy : Nat) : List Nat := fmtYMD yr mo dy

/-- Code points that `_norm_txt`'s lowercase/unaccent steps leave unchanged:
space, comma, hyphen, digits, lowercase ASCII letters, ñ. -/
def plainChar (c : Nat) : Prop :=
  c = 32 ∨ c = 44 ∨ c = 45 ∨ (48 ≤ c ∧ c ≤ 57) ∨ (97 ≤ c ∧ c ≤ 122) ∨ c = 241

/-- No adjacent digit-then-whitespace pair anywhere in the list.  Patterns 1
and 2 both contain `\d{1,2}\s`, so they cannot match inside such a list. -/
def pairsOK : List Nat → Bool
  | a :: b :: r => (!(isDig a && isSp b)) && pairsOK (b :: r)
  | _ => true

/-!
## Helper lemmas
-/

theorem Date.le_total_lemma (a b : Date) : Date.le a b ∨ Date.le b a := by
  obtain ⟨ay, am, ad⟩ := a
  obtain ⟨by1, bm, bd⟩ := b
  simp only [Date.le, Date.lt, Date.mk.injEq]
  omega

theorem Date.le_trans_lemma {a b c : Date} (h1 : Date.le a b) (h2 : Date.le b c) :
    Date.le a c := by
  obtain ⟨ay, am, ad⟩ := a
  obtain ⟨by1, bm, bd⟩ := b
  obtain ⟨cy, cm, cd⟩ := c
  simp only [Date.le, Date.lt, Date.mk.injEq] at h1 h2 ⊢
  omega

theorem mkValidDate_valid {yr mo dy : Nat} {a : Date}
    (h : mkValidDate yr mo dy = some a) : dateValid a := by
  unfold mkValidDate at h
  split at h
  · cases h
    assumption
  · exact Option.noConfusion h

theorem mkValidDate_of_valid {yr mo dy : Nat} (h : dateValid ⟨yr, mo, dy⟩) :
    mkValidDate yr mo dy = some ⟨yr, mo, dy⟩ := by
  unfold mkValidDate
  exact if_pos h

/-- Every date produced by a `strptime` format model is calendar-valid. -/
theorem strpYmdDash_valid {cs : List Nat} {a : Date}
    (h : strpYmdDash cs = some a) : dateValid a := by
  unfold strpYmdDash at h
  iterate 6 (all_goals try split at h)
  all_goals first
    | exact mkValidDate_valid h
    | exact Option.noConfusion h

theorem strpDmYSlash_valid {cs : List Nat} {a : Date}
    (h : strpDmYSlash cs = some a) : dateValid a := by
  unfold strpDmYSlash at h
  iterate 6 (all_goals try split at h)
  all_goals first
    | exact mkValidDate_valid h
    | exact Option.noConfusion h

theorem strpYmdSlash_valid {cs : List Nat} {a : Date}
    (h : strpYmdSlash cs = some a) : dateValid a := by
  unfold strpYmdSlash at h
  iterate 6 (all_goals try split at h)
  all_goals first
    | exact mkValidDate_valid h
    | exact Option.noConfusion h

theorem strpDmYDash_valid {cs : List Nat} {a : Date}
    (h : strpDmYDash cs = some a) : dateValid a := by
  unfold strpDmYDash at h
  iterate 6 (all_goals try split at h)
  all_goals first
    | exact mkValidDate_valid h
    | exact Option.noConfusion h

theorem isoChain_valid {cs : List Nat} {a : Date}
    (h : isoChain cs = some a) : dateValid a := by
  unfold isoChain at h
  iterate 4 (all_goals try split at h)
  all_goals first
    | exact strpYmdDash_valid h
    | exact strpDmYSlash_valid h
    | exact strpYmdSlash_valid h
    | exact strpDmYDash_valid h
    | (cases h; first
        | exact strpYmdDash_valid (by assumption)
        | exact strpDmYSlash_valid (by assumption)
        | exact strpYmdSlash_valid (by assumption))

theorem parseP3_valid {t raw : List Nat} {a : Date}
    (h : parseP3 t raw = some a) : dateValid a := by
  unfold parseP3 at h
  iterate 3 (all_goals try split at h)
  all_goals first
    | exact mkValidDate_valid h
    | exact isoChain_valid h

theorem parseP2_valid {t raw : List Nat} {a : Date}
    (h : parseP2 t raw = some a) : dateValid a := by
  unfold parseP2 at h
  iterate 3 (all_goals try split at h)
  all_goals first
    | exact mkValidDate_valid h
    | exact parseP3_valid h

/-- `_parse_human_date_to_dateobj` only ever returns calendar-valid dates:
every success flows through the guarded `date()` constructor. -/
theorem parseHumanCodes_valid {text : List Nat} {a : Date}
    (h : parseHumanCodes text = some a) : dateValid a := by
  simp only [parseHumanCodes] at h
  iterate 3 (all_goals try split at h)
  all_goals first
    | exact mkValidDate_valid h
    | exact parseP2_valid h

theorem digits4_pad4 (yr : Nat) (hy : yr ≤ 9999) (rest : List Nat) :
    digits4 (pad4 yr ++ rest) = some (yr, rest) := by
  simp only [pad4, List.cons_append, List.nil_append, digits4]
  rw [if_pos]
  · have h1 : yr / 1000 % 10 = yr / 1000 := by omega
    have : ((digitVal (48 + yr / 1000 % 10) * 10 + digitVal (48 + yr / 100 % 10)) * 10 +
        digitVal (48 + yr / 10 % 10)) * 10 + digitVal (48 + yr % 10) = yr := by
      simp only [digitVal]
      omega
    rw [this]
  · simp only [isDig, Bool.and_eq_true, decide_eq_true_eq]
    omega

theorem natDecimalAux_step {f n : Nat} (h : 10 ≤ n) :
    natDecimalAux (f + 1) n = natDecimalAux f (n / 10) ++ [48 + n % 10] := by
  simp only [natDecimalAux]
  rw [if_neg (by omega)]

theorem natDecimalAux_lt10 (f : Nat) {n : Nat} (h : n < 10) :
    natDecimalAux f n = [48 + n] := by
  cases f with
  | zero =>
    simp only [natDecimalAux]
    congr 1
    omega
  | succ f =>
    simp only [natDecimalAux]
    rw [if_pos h]

theorem natDecimal_eq_pad4 (yr : Nat) (h1 : 1000 ≤ yr) (h2 : yr ≤ 9999) :
    natDecimal yr = pad4 yr := by
  have e10 : yr / 10 / 10 = yr / 100 := by omega
  have e100 : yr / 100 / 10 = yr / 1000 := by omega
  obtain ⟨f, rfl⟩ : ∃ f, yr = f + 3 := ⟨yr - 3, by omega⟩
  unfold natDecimal
  rw [show f + 3 = (f + 2) + 1 from rfl, natDecimalAux_step (by omega)]
  rw [show f + 2 = (f + 1) + 1 from rfl, natDecimalAux_step (by omega), e10]
  rw [natDecimalAux_step (by omega), e100]
  rw [natDecimalAux_lt10 f (by omega)]
  simp only [pad4, List.cons_append, List.nil_append, List.append_assoc]
  have : (f + 3) / 1000 = (f + 3) / 1000 % 10 := by omega
  rw [← this]

theorem strpMonth_pad2 (mo : Nat) (h1 : 1 ≤ mo) (h2 : mo ≤ 12) (rest : List Nat) :
    strpMonth (pad2 mo ++ rest) = some (mo, rest) := by
  simp only [pad2, List.cons_append, List.nil_append, strpMonth]
  by_cases h : mo ≤ 9
  · rw [if_neg (by omega), if_pos (by omega)]
    simp only [Option.some.injEq, Prod.mk.injEq]
    exact ⟨by omega, trivial⟩
  · rw [if_pos (by omega)]
    simp only [Option.some.injEq, Prod.mk.injEq]
    exact ⟨by omega, trivial⟩

theorem strpDay_pad2 (dy : Nat) (h1 : 1 ≤ dy) (h2 : dy ≤ 31) (rest : List Nat) :
    strpDay (pad2 dy ++ rest) = some (dy, rest) := by
  simp only [pad2, List.cons_append, List.nil_append, strpDay]
  by_cases ha : dy ≤ 9
  · rw [if_neg (by omega), if_neg (by omega), if_pos (by omega)]
    simp only [Option.some.injEq, Prod.mk.injEq]
    exact ⟨by omega, trivial⟩
  · by_cases hb : dy ≤ 29
    · rw [if_neg (by omega), if_pos (by omega)]
      simp only [Option.some.injEq, Prod.mk.injEq]
      exact ⟨by omega, trivial⟩
    · rw [if_pos (by omega)]
      simp only [Option.some.injEq, Prod.mk.injEq]
      exact ⟨by omega, trivial⟩

theorem litN_cons (n : Nat) (rest : List Nat) : litN n (n :: rest) = some rest := by
  simp [litN]

/-- The `strptime("%Y_%m_%d")` re-parse inverts the `f-string` rendering
exactly when the year prints with four digits. -/
theorem strpY_M_D_fechaTexto {a : Date} (hv : dateValid a) (hy : 1000 ≤ a.y) :
    strpY_M_D (fechaTexto a) = some a := by
  obtain ⟨yr, mo, dy⟩ := a
  obtain ⟨v1, v2, v3, v4, v5, v6⟩ := hv
  simp only at hy v2 v3 v4 v5 v6
  have hd31 : dy ≤ 31 := by
    have : daysInMonth yr mo ≤ 31 := by
      unfold daysInMonth
      split <;> first | omega | split <;> omega
    omega
  have hD : strpDay (pad2 dy) = some (dy, []) := by
    simpa using strpDay_pad2 dy v5 hd31 []
  unfold strpY_M_D fechaTexto
  simp only [natDecimal_eq_pad4 yr hy v2, List.append_assoc, digits4_pad4 yr v2,
    litN_cons, strpMonth_pad2 mo v3 v4, hD, List.cons_append,
    List.nil_append, List.append_nil, if_true]
  exact mkValidDate_of_valid ⟨by omega, v2, v3, v4, v5, v6⟩

theorem oldest_none {items : List Item}
    (h : ∀ it ∈ items, parseHumanCodes it.2 = none) :
    oldest_date_in_items items = none := by
  unfold oldest_date_in_items
  have he : (items.map (fun it => parseHumanCodes it.2)).reduceOption = [] := by
    induction items with
    | nil => rfl
    | cons a l ih =>
      have ha := h a (by simp)
      simp only [List.map_cons, ha, List.reduceOption_cons_of_none]
      exact ih (fun it hit => h it (by simp [hit]))
  rw [he]

theorem parse_input_date_error_prefix {s : Option (List Nat)} {e : Bool}
    {msg : List Nat} (h : parse_input_date s e = .error msg) :
    codes "Fecha inválida: " <+: msg := by
  have base : ∀ t, codes "Fecha inválida: " <+: invMsg t := fun t =>
    (List.prefix_append _ _).trans (List.prefix_append _ _)
  simp only [parse_input_date] at h
  iterate 8 (all_goals try split at h)
  all_goals first
    | exact Except.noConfusion h
    | (cases h; exact base _)

/-- C1: with a `from` bound set, a listing whose entries never yield a
parseable date and whose "more" control always accepts a click keeps the
expansion loop of `descargar_facturas` (facturas.py:751-761) running
forever: for every fuel bound the loop has not yet stopped.  The loop is
`while True` with no round ceiling, contradicting the claimed `maxRounds`
cap. -/
theorem c1_from_expansion_never_stops (env : Nat → Bool × List Item)
    (dfrom : Date) (hclick : ∀ k, (env k).1 = true)
    (hund : ∀ k it, it ∈ (env k).2 → parseHumanCodes it.2 = none) :
    ∀ (fuel k : Nat) (items : List Item),
      (∀ it ∈ items, parseHumanCodes it.2 = none) →
      fromLoop env dfrom items k fuel = none := by
  intro fuel
  induction fuel with
  | zero => intro k items _; rfl
  | succ n ih =>
    intro k items h
    unfold fromLoop
    rw [oldest_none h]
    simp only [hclick k]
    exact ih (k + 1) ((env k).2) (hund k)

/-- Witness for C1: the always-clicking all-undated listing at 40 fuel. -/
theorem c1_from_expansion_never_stops_witness :
    fromLoop alwaysClickUndated ⟨2025, 1, 1⟩ [] 0 40 = none :=
  c1_from_expansion_never_stops alwaysClickUndated ⟨2025, 1, 1⟩
    (fun _ => rfl) (fun _ _ h => nomatch h) 40 0 [] (fun _ h => nomatch h)

/-- C2 (counterexample): a malformed `date_from` is parsed before the
top-level `try` (facturas.py:568), so its `ValueError` reaches the caller
raw, not wrapped in the unified `Error al descargar facturas:` message. -/
theorem c2_counterexample :
    descargar_facturas (some (codes "x")) none (fun _ _ => .error (codes "boom"))
        = .error (codes "Fecha inválida: x (usa YYYY-MM o YYYY-MM-DD)") ∧
      List.isPrefixOf (codes "Error al descargar facturas: ")
        (codes "Fecha inválida: x (usa YYYY-MM o YYYY-MM-DD)") = false := by
  constructor
  · rfl
  · rfl

/-- C2 (amended): every invocation of `descargar_facturas` returns a
structured summary, or raises the raw `Fecha inválida:` input-validation
error, or raises a single error wrapped with the unified
`Error al descargar facturas:` message; no other exception shape escapes. -/
theorem c2_error_surface (dateFrom dateTo : Option (List Nat))
    (body : Option Date → Option Date → Except (List Nat) RunSummary) :
    (∃ s, descargar_facturas dateFrom dateTo body = .ok s) ∨
    (∃ e, descargar_facturas dateFrom dateTo body = .error e ∧
      (codes "Fecha inválida: " <+: e ∨
       codes "Error al descargar facturas: " <+: e)) := by
  have pfx : ∀ (o : Option (List Nat)) (b : Bool) (e : List Nat),
      (if truthyStr o then parse_input_date o b else Except.ok none) = .error e →
      codes "Fecha inválida: " <+: e := by
    intro o b e h
    split at h
    · exact parse_input_date_error_prefix h
    · exact Except.noConfusion h
  unfold descargar_facturas
  split
  case _ e h1 => exact Or.inr ⟨e, rfl, Or.inl (pfx _ _ _ h1)⟩
  case _ dfrom _ =>
    split
    case _ e h2 => exact Or.inr ⟨e, rfl, Or.inl (pfx _ _ _ h2)⟩
    case _ dto _ =>
      split
      case _ s _ => exact Or.inl ⟨s, rfl⟩
      case _ e _ =>
        exact Or.inr ⟨_, rfl, Or.inr (List.prefix_append _ _)⟩

/-- C8: when a download event fired, the primary `save_as` fails and the
temporary-file relocation succeeds, the item counts as downloaded and no
error is recorded (facturas.py:923-935). -/
theorem c8_fallback_save_success (dfrom dto : Option Date) (env : ItemEnv)
    (st : RunState) (msg : List Nat)
    (hv : dateValid ((parseHumanCodes env.bodyText).getD env.today))
    (hy : 1000 ≤ ((parseHumanCodes env.bodyText).getD env.today).y)
    (hin : in_range_day ((parseHumanCodes env.bodyText).getD env.today) dfrom dto = true)
    (htr : env.downloadTriggered = true)
    (hsa : env.saveAs = .error msg)
    (hfb : env.fallbackOk = true) :
    processItem dfrom dto env st = .ok ⟨st.descargadas + 1, st.errores⟩ := by
  simp only [processItem, strpY_M_D_fechaTexto hv hy, hin, htr, hsa, hfb,
    Bool.true_eq_false, if_false, if_true]

/-- Witness for C8. -/
theorem c8_fallback_save_success_witness :
    processItem none none
      ⟨codes "h", codes "25 oct 2025", ⟨2026, 1, 1⟩, true, .error (codes "perm"), true⟩
      ⟨0, []⟩ = .ok ⟨1, []⟩ :=
  c8_fallback_save_success none none
    ⟨codes "h", codes "25 oct 2025", ⟨2026, 1, 1⟩, true, .error (codes "perm"), true⟩
    ⟨0, []⟩ (codes "perm") (by decide) (by decide) (by decide) rfl rfl rfl

/-- C9 (implicit): when a download event fired and both the primary save
and the fallback relocation fail, `descargadas` is still incremented while
an error is recorded for the same item, so the downloaded count can exceed
the number of files actually saved (facturas.py:918-935: the increment is
unconditional in the `else` branch). -/
theorem c9_count_increment_on_double_failure (dfrom dto : Option Date)
    (env : ItemEnv) (st : RunState) (msg : List Nat)
    (hv : dateValid ((parseHumanCodes env.bodyText).getD env.today))
    (hy : 1000 ≤ ((parseHumanCodes env.bodyText).getD env.today).y)
    (hin : in_range_day ((parseHumanCodes env.bodyText).getD env.today) dfrom dto = true)
    (htr : env.downloadTriggered = true)
    (hsa : env.saveAs = .error msg)
    (hfb : env.fallbackOk = false) :
    processItem dfrom dto env st
      = .ok ⟨st.descargadas + 1, st.errores ++ [(env.href, msg)]⟩ := by
  simp only [processItem, strpY_M_D_fechaTexto hv hy, hin, htr, hsa, hfb,
    Bool.true_eq_false, Bool.false_eq_true, if_false, if_true]

/-- Witness for C9. -/
theorem c9_count_increment_on_double_failure_witness :
    processItem none none
      ⟨codes "h", codes "25 oct 2025", ⟨2026, 1, 1⟩, true, .error (codes "perm"), false⟩
      ⟨3, []⟩ = .ok ⟨4, [(codes "h", codes "perm")]⟩ :=
  c9_count_increment_on_double_failure none none
    ⟨codes "h", codes "25 oct 2025", ⟨2026, 1, 1⟩, true, .error (codes "perm"), false⟩
    ⟨3, []⟩ (codes "perm") (by decide) (by decide) (by decide) rfl rfl rfl

/-- C10 (implicit): `_parse_human_date_to_dateobj` is total — modelled by
its `Option` result type — and every date it returns passed the guarded
`date()` constructor, so it is calendar-valid; text matching a pattern with
an out-of-range day, such as `31 de febrero de 2025`, yields `None` rather
than an error. -/
theorem c10_total_and_valid :
    (∀ (text : List Nat) (a : Date), parseHumanCodes text = some a → dateValid a) ∧
    parseHumanCodes (codes "31 de febrero de 2025") = none :=
  ⟨fun _ _ h => parseHumanCodes_valid h, by rfl⟩

/-- Witness for C10. -/
theorem c10_total_and_valid_witness : dateValid ⟨2025, 10, 25⟩ :=
  c10_total_and_valid.1 (codes "2025-10-25") ⟨2025, 10, 25⟩ (by rfl)

/-- C7 (counterexample): a rendered document whose first recognisable date
is `25 de octubre de 0999` yields the authoritative date 0999-10-25 — out of
the 2025 range — yet the item is not skipped: the `strptime("%Y_%m_%d")`
re-parse of the three-digit year raises before the range check, aborting the
run. -/
theorem c7_counterexample :
    processItem (some ⟨2025, 1, 1⟩) none
        ⟨codes "h", codes "25 de octubre de 0999", ⟨2026, 1, 1⟩, false, .ok (), false⟩
        ⟨0, []⟩
      = .error (timeDataMsg (codes "999_10_25")) ∧
    parseHumanCodes (codes "25 de octubre de 0999") = some ⟨999, 10, 25⟩ ∧
    in_range_day ⟨999, 10, 25⟩ (some ⟨2025, 1, 1⟩) none = false :=
  ⟨rfl, rfl, rfl⟩

/-- C7 (amended): provided the authoritative date's year is at least 1000
(so that its f-string rendering re-parses under `%Y_%m_%d`), an item whose
authoritative date falls outside `[from, to]` is skipped: the run state is
unchanged, processing advances to the next item, and the outcome is
independent of the download-related observations. -/
theorem c7_out_of_range_skips (dfrom dto : Option Date) (env : ItemEnv)
    (st : RunState) (rest : List ItemEnv)
    (hv : dateValid ((parseHumanCodes env.bodyText).getD env.today))
    (hy : 1000 ≤ ((parseHumanCodes env.bodyText).getD env.today).y)
    (hout : in_range_day ((parseHumanCodes env.bodyText).getD env.today) dfrom dto
      = false) :
    processItem dfrom dto env st = .ok st ∧
    runItems dfrom dto (env :: rest) st = runItems dfrom dto rest st ∧
    (∀ (trig : Bool) (save : Except (List Nat) Unit) (fb : Bool),
      processItem dfrom dto ⟨env.href, env.bodyText, env.today, trig, save, fb⟩ st
        = .ok st) := by
  have key : ∀ (trig : Bool) (save : Except (List Nat) Unit) (fb : Bool),
      processItem dfrom dto ⟨env.href, env.bodyText, env.today, trig, save, fb⟩ st
        = .ok st := by
    intro trig save fb
    simp only [processItem, strpY_M_D_fechaTexto hv hy, hout, if_true]
  have h1 : processItem dfrom dto env st = .ok st := key _ _ _
  refine ⟨h1, ?_, key⟩
  simp only [runItems, h1]

/-- Witness for C7 (amended). -/
theorem c7_out_of_range_skips_witness :
    processItem (some ⟨2025, 1, 1⟩) none
        ⟨codes "h", codes "5 de julio de 2024", ⟨2026, 1, 1⟩, true, .ok (), true⟩
        ⟨2, []⟩ = .ok ⟨2, []⟩ :=
  (c7_out_of_range_skips (some ⟨2025, 1, 1⟩) none
    ⟨codes "h", codes "5 de julio de 2024", ⟨2026, 1, 1⟩, true, .ok (), true⟩
    ⟨2, []⟩ [] (by decide) (by decide) (by decide)).1

/-!
### The reveal loop: supporting lemmas for C5
-/

theorem expandGo_succ (env : Nat → RoundObs) (last i n : Nat) :
    expandGo env last i (n + 1) =
      if (env i).clicked = false then
        (if last < (env i).count1 then expandGo env (env i).count1 (i + 1) n
         else i + 1)
      else
        (if (env i).count2 ≤ last then i + 1
         else expandGo env (env i).count2 (i + 1) n) := rfl

theorem expandGo_ge (env : Nat → RoundObs) :
    ∀ (fuel i last : Nat), i ≤ expandGo env last i fuel := by
  intro fuel
  induction fuel with
  | zero => intro i last; exact le_rfl
  | succ n ih =>
    intro i last
    rw [expandGo_succ]
    split
    · split
      · exact le_trans (by omega) (ih (i + 1) _)
      · omega
    · split
      · omega
      · exact le_trans (by omega) (ih (i + 1) _)

theorem expandGo_le_bound (env : Nat → RoundObs) :
    ∀ (fuel i last : Nat), expandGo env last i fuel ≤ i + fuel := by
  intro fuel
  induction fuel with
  | zero => intro i last; exact Nat.le_add_right i 0
  | succ n ih =>
    intro i last
    rw [expandGo_succ]
    split
    · split
      · exact le_trans (ih (i + 1) _) (by omega)
      · omega
    · split
      · omega
      · exact le_trans (ih (i + 1) _) (by omega)

theorem expandGo_pos (env : Nat → RoundObs) {fuel : Nat} (h : 0 < fuel)
    (i last : Nat) : i + 1 ≤ expandGo env last i fuel := by
  obtain ⟨n, rfl⟩ : ∃ n, fuel = n + 1 := ⟨fuel - 1, by omega⟩
  rw [expandGo_succ]
  split
  · split
    · exact expandGo_ge env n (i + 1) _
    · omega
  · split
    · omega
    · exact expandGo_ge env n (i + 1) _

theorem continuesAt_noclick {env : Nat → RoundObs} {init i : Nat}
    (hc : (env i).clicked = false) :
    continuesAt env init i = decide (lastSeq env init i < (env i).count1) := by
  unfold continuesAt newCount
  rw [hc]
  simp

theorem continuesAt_click {env : Nat → RoundObs} {init i : Nat}
    (hc : (env i).clicked = true) :
    continuesAt env init i = decide (lastSeq env init i < (env i).count2) := by
  unfold continuesAt newCount
  rw [hc]
  simp

theorem lastSeq_update_noclick {env : Nat → RoundObs} {init i : Nat}
    (hc : (env i).clicked = false) (hg : lastSeq env init i < (env i).count1) :
    lastSeq env init (i + 1) = (env i).count1 := by
  unfold lastSeq newCount
  rw [hc]
  simp only [if_false, Bool.false_eq_true]
  rw [if_pos hg]

theorem lastSeq_update_click {env : Nat → RoundObs} {init i : Nat}
    (hc : (env i).clicked = true) (hg : lastSeq env init i < (env i).count2) :
    lastSeq env init (i + 1) = (env i).count2 := by
  unfold lastSeq newCount
  rw [hc]
  simp only [if_true]
  rw [if_pos hg]

theorem expandGo_cont (env : Nat → RoundObs) (init : Nat) :
    ∀ (fuel i j : Nat), i ≤ j →
      j + 1 < expandGo env (lastSeq env init i) i fuel →
      continuesAt env init j = true := by
  intro fuel
  induction fuel with
  | zero =>
    intro i j hij hlt
    simp only [expandGo] at hlt
    omega
  | succ n ih =>
    intro i j hij hlt
    rw [expandGo_succ] at hlt
    by_cases hc : (env i).clicked = false
    · rw [if_pos hc] at hlt
      by_cases hg : lastSeq env init i < (env i).count1
      · rw [if_pos hg] at hlt
        rw [← lastSeq_update_noclick hc hg] at hlt
        rcases Nat.eq_or_lt_of_le hij with rfl | hij2
        · rw [continuesAt_noclick hc]
          simpa using hg
        · exact ih (i + 1) j hij2 hlt
      · rw [if_neg hg] at hlt
        omega
    · rw [if_neg hc] at hlt
      by_cases hs : (env i).count2 ≤ lastSeq env init i
      · rw [if_pos hs] at hlt
        omega
      · rw [if_neg hs] at hlt
        have hc2 : (env i).clicked = true := by
          cases h : (env i).clicked
          · exact absurd h hc
          · rfl
        have hg : lastSeq env init i < (env i).count2 := by omega
        rw [← lastSeq_update_click hc2 hg] at hlt
        rcases Nat.eq_or_lt_of_le hij with rfl | hij2
        · rw [continuesAt_click hc2]
          simpa using hg
        · exact ih (i + 1) j hij2 hlt

theorem expandGo_stop (env : Nat → RoundObs) (init : Nat) :
    ∀ (fuel i j : Nat), i ≤ j →
      j + 1 = expandGo env (lastSeq env init i) i fuel →
      j + 1 < i + fuel →
      continuesAt env init j = false := by
  intro fuel
  induction fuel with
  | zero =>
    intro i j _ _ hlt
    omega
  | succ n ih =>
    intro i j hij heq hlt
    rw [expandGo_succ] at heq
    by_cases hc : (env i).clicked = false
    · rw [if_pos hc] at heq
      by_cases hg : lastSeq env init i < (env i).count1
      · rw [if_pos hg] at heq
        rw [← lastSeq_update_noclick hc hg] at heq
        rcases Nat.eq_or_lt_of_le hij with rfl | hij2
        · exfalso
          have hn : 0 < n := by omega
          have := expandGo_pos env hn (i + 1) (lastSeq env init (i + 1))
          omega
        · exact ih (i + 1) j hij2 heq (by omega)
      · rw [if_neg hg] at heq
        have : j = i := by omega
        subst this
        rw [continuesAt_noclick hc]
        simpa using hg
    · rw [if_neg hc] at heq
      have hc2 : (env i).clicked = true := by
        cases h : (env i).clicked
        · exact absurd h hc
        · rfl
      by_cases hs : (env i).count2 ≤ lastSeq env init i
      · rw [if_pos hs] at heq
        have : j = i := by omega
        subst this
        rw [continuesAt_click hc2]
        simp only [decide_eq_false_iff_not]
        omega
      · rw [if_neg hs] at heq
        have hg : lastSeq env init i < (env i).count2 := by omega
        rw [← lastSeq_update_click hc2 hg] at heq
        rcases Nat.eq_or_lt_of_le hij with rfl | hij2
        · exfalso
          have hn : 0 < n := by omega
          have := expandGo_pos env hn (i + 1) (lastSeq env init (i + 1))
          omega
        · exact ih (i + 1) j hij2 heq (by omega)

theorem expandGo_growth (env : Nat → RoundObs) (init : Nat)
    (hall : ∀ j, continuesAt env init j = true) :
    ∀ (fuel i : Nat), expandGo env (lastSeq env init i) i fuel = i + fuel := by
  intro fuel
  induction fuel with
  | zero => intro i; rfl
  | succ n ih =>
    intro i
    rw [expandGo_succ]
    by_cases hc : (env i).clicked = false
    · have hg : lastSeq env init i < (env i).count1 := by
        have := hall i
        rw [continuesAt_noclick hc] at this
        simpa using this
      rw [if_pos hc, if_pos hg, ← lastSeq_update_noclick hc hg, ih (i + 1)]
      omega
    · have hc2 : (env i).clicked = true := by
        cases h : (env i).clicked
        · exact absurd h hc
        · rfl
      have hg : lastSeq env init i < (env i).count2 := by
        have := hall i
        rw [continuesAt_click hc2] at this
        simpa using this
      rw [if_neg hc, if_neg (by omega), ← lastSeq_update_click hc2 hg, ih (i + 1)]
      omega

/-- C5: the reveal loop executes at most `maxRounds` rounds for every page
behaviour; every round before the last one saw the entry count grow past
`last_count` (`continuesAt`, which reads `count1` when no click occurred and
the post-wait `count2` when one did); when the loop stops strictly before
the ceiling, its final round saw no growth (no-click-no-growth or
click-no-growth); and a page that keeps growing every round runs exactly
`maxRounds` rounds — bounded by the ceiling, not by convergence. -/
theorem c5_reveal_loop (env : Nat → RoundObs) (initCount maxRounds : Nat) :
    expand_all_invoices_all_languages env initCount maxRounds ≤ maxRounds ∧
    (∀ j, j + 1 < expand_all_invoices_all_languages env initCount maxRounds →
      continuesAt env initCount j = true) ∧
    (∀ j, j + 1 = expand_all_invoices_all_languages env initCount maxRounds →
      j + 1 < maxRounds → continuesAt env initCount j = false) ∧
    ((∀ j, continuesAt env initCount j = true) →
      expand_all_invoices_all_languages env initCount maxRounds = maxRounds) := by
  have h0 : lastSeq env initCount 0 = initCount := rfl
  refine ⟨?_, ?_, ?_, ?_⟩
  · have := expandGo_le_bound env maxRounds 0 initCount
    simpa [expand_all_invoices_all_languages] using this
  · intro j hj
    refine expandGo_cont env initCount maxRounds 0 j (Nat.zero_le j) ?_
    rw [h0]
    exact hj
  · intro j hj hlt
    refine expandGo_stop env initCount maxRounds 0 j (Nat.zero_le j) ?_ (by omega)
    rw [h0]
    exact hj
  · intro hall
    have := expandGo_growth env initCount hall maxRounds 0
    rw [h0] at this
    simpa [expand_all_invoices_all_languages] using this

/-- Witness for C5: a page that plateaus immediately stops after one round,
below the ceiling of 3, and that round saw no growth. -/
theorem c5_reveal_loop_witness :
    expand_all_invoices_all_languages plateauEnv 0 3 ≤ 3 ∧
    continuesAt plateauEnv 0 0 = false :=
  ⟨(c5_reveal_loop plateauEnv 0 3).1,
   (c5_reveal_loop plateauEnv 0 3).2.2.1 0 (by decide) (by decide)⟩

/-!
### Supporting lemmas for C4
-/

theorem dropWhile_eq_self_of_none {l : List Nat} (h : ∀ c ∈ l, isSp c = false) :
    l.dropWhile isSp = l := by
  cases l with
  | nil => rfl
  | cons a t =>
    rw [List.dropWhile_cons_of_neg]
    simp [h a (by simp)]

theorem stripCodes_eq_self {cs : List Nat} (h : ∀ c ∈ cs, isSp c = false) :
    stripCodes cs = cs := by
  unfold stripCodes
  rw [dropWhile_eq_self_of_none h]
  rw [dropWhile_eq_self_of_none (fun c hc => h c (List.mem_reverse.mp hc))]
  exact List.reverse_reverse cs

theorem isSp_digitCode (k : Nat) : isSp (48 + k % 10) = false := by
  simp only [isSp, Bool.or_eq_false_iff, decide_eq_false_iff_not]
  omega

theorem isDig_digitCode (k : Nat) : isDig (48 + k % 10) = true := by
  simp only [isDig, Bool.and_eq_true, decide_eq_true_eq]
  omega

theorem fmtYM_no_space (yr mo : Nat) : ∀ c ∈ fmtYM yr mo, isSp c = false := by
  intro c hc
  simp only [fmtYM, pad4, pad2, List.cons_append, List.nil_append,
    List.mem_cons, List.not_mem_nil, or_false] at hc
  rcases hc with h | h | h | h | h | h | h <;> subst h <;>
    first | exact isSp_digitCode _ | rfl

theorem fmtYMD_no_space (yr mo dy : Nat) : ∀ c ∈ fmtYMD yr mo dy, isSp c = false := by
  intro c hc
  simp only [fmtYMD, pad4, pad2, List.cons_append, List.nil_append,
    List.mem_cons, List.not_mem_nil, or_false] at hc
  rcases hc with h | h | h | h | h | h | h | h | h | h <;> subst h <;>
    first | exact isSp_digitCode _ | rfl

theorem matchYMC_fmtYM (yr mo : Nat) (hy : yr ≤ 9999) (hm : mo ≤ 99) :
    matchYMC (fmtYM yr mo) = some (yr, mo) := by
  simp only [fmtYM, pad4, pad2, List.cons_append, List.nil_append, matchYMC]
  rw [if_pos]
  · simp only [Option.some.injEq, Prod.mk.injEq, digitVal]
    constructor <;> omega
  · simp only [Bool.and_eq_true, isDig, decide_eq_true_eq]
    omega

theorem matchYMDC_fmtYM (yr mo : Nat) : matchYMDC (fmtYM yr mo) = none := by
  simp only [fmtYM, pad4, pad2, List.cons_append, List.nil_append, matchYMDC]

theorem matchYMDC_fmtYMD (yr mo dy : Nat) (hy : yr ≤ 9999) (hm : mo ≤ 99)
    (hd : dy ≤ 99) : matchYMDC (fmtYMD yr mo dy) = some (yr, mo, dy) := by
  simp only [fmtYMD, pad4, pad2, List.cons_append, List.nil_append, matchYMDC]
  rw [if_pos]
  · simp only [Option.some.injEq, Prod.mk.injEq, digitVal]
    refine ⟨by omega, by omega, by omega⟩
  · simp only [Bool.and_eq_true, isDig, decide_eq_true_eq]
    omega

theorem fmtYM_ne_nil (yr mo : Nat) : fmtYM yr mo ≠ [] := by
  simp [fmtYM, pad4]

theorem fmtYMD_ne_nil (yr mo dy : Nat) : fmtYMD yr mo dy ≠ [] := by
  simp [fmtYMD, pad4]

theorem dateMinusOneDay_first (yr mo : Nat) (h1 : 1 ≤ mo) :
    dateMinusOneDay ⟨yr, mo + 1, 1⟩ = ⟨yr, mo, daysInMonth yr mo⟩ := by
  unfold dateMinusOneDay
  simp only
  rw [if_neg (by omega), if_pos (by omega)]
  simp only [Nat.add_sub_cancel]

/-- C4: `_parse_input_date` on well-formed machine input: `YYYY-MM` with
`end=False` yields the first day of the month and with `end=True` the last
calendar day (Feb 28/29 by leap year, Dec 31); `YYYY-MM-DD` yields exactly
that day; and every other non-empty string raises the
`Fecha inválida` ValueError. -/
theorem c4_parse_input_date :
    (∀ yr mo : Nat, 1 ≤ yr → yr ≤ 9999 → 1 ≤ mo → mo ≤ 12 →
      parse_input_date (some (fmtYM yr mo)) false = .ok (some ⟨yr, mo, 1⟩) ∧
      parse_input_date (some (fmtYM yr mo)) true
        = .ok (some ⟨yr, mo, daysInMonth yr mo⟩)) ∧
    (∀ (yr mo dy : Nat) (e : Bool), dateValid ⟨yr, mo, dy⟩ →
      parse_input_date (some (fmtYMD yr mo dy)) e = .ok (some ⟨yr, mo, dy⟩)) ∧
    (∀ (s : List Nat) (e : Bool), s ≠ [] → wellFormedInput s = false →
      parse_input_date (some s) e = .error (invMsg (stripCodes s))) := by
  refine ⟨?_, ?_, ?_⟩
  · intro yr mo h1 h2 h3 h4
    have hstrip := stripCodes_eq_self (fmtYM_no_space yr mo)
    have hmain : ∀ e : Bool, parse_input_date (some (fmtYM yr mo)) e
        = .ok (some (if e then
                       (if mo = 12 then ⟨yr, 12, 31⟩
                        else dateMinusOneDay ⟨yr, mo + 1, 1⟩)
                     else ⟨yr, mo, 1⟩)) := by
      intro e
      simp only [parse_input_date, if_neg (fmtYM_ne_nil yr mo), hstrip,
        matchYMDC_fmtYM, matchYMC_fmtYM yr mo h2 (by omega)]
      rw [if_pos ⟨h1, h3, h4⟩]
    constructor
    · simpa using hmain false
    · rw [hmain true]
      by_cases hmo : mo = 12
      · subst hmo
        rfl
      · simp only [if_neg hmo, if_true,
          dateMinusOneDay_first yr mo h3]
  · intro yr mo dy e hv
    have hb := hv
    obtain ⟨v1, v2, v3, v4, v5, v6⟩ := hb
    simp only at v1 v2 v3 v4 v5 v6
    have hstrip := stripCodes_eq_self (fmtYMD_no_space yr mo dy)
    have hd99 : dy ≤ 99 := by
      have : daysInMonth yr mo ≤ 31 := by
        unfold daysInMonth
        split <;> first | omega | split <;> omega
      omega
    simp only [parse_input_date, if_neg (fmtYMD_ne_nil yr mo dy), hstrip,
      matchYMDC_fmtYMD yr mo dy v2 (by omega) hd99]
    rw [if_pos hv]
  · intro s e hne hwf
    simp only [wellFormedInput, Bool.or_eq_false_iff] at hwf
    obtain ⟨hwf1, hwf2⟩ := hwf
    simp only [parse_input_date, if_neg hne]
    cases hm1 : matchYMDC (stripCodes s) with
    | some v =>
      obtain ⟨yr, mo, dy⟩ := v
      rw [hm1] at hwf1
      simp only [decide_eq_false_iff_not] at hwf1
      simp only [if_neg hwf1]
    | none =>
      cases hm2 : matchYMC (stripCodes s) with
      | some v =>
        obtain ⟨yr, mo⟩ := v
        rw [hm2] at hwf2
        simp only [decide_eq_false_iff_not] at hwf2
        simp only [if_neg hwf2]
      | none => rfl

/-- Witness for C4: the spec's three end-of-month examples plus a rejected
malformed input. -/
theorem c4_parse_input_date_witness :
    parse_input_date (some (codes "2025-02")) true = .ok (some ⟨2025, 2, 28⟩) ∧
    parse_input_date (some (codes "2024-02")) true = .ok (some ⟨2024, 2, 29⟩) ∧
    parse_input_date (some (codes "2025-12")) true = .ok (some ⟨2025, 12, 31⟩) ∧
    parse_input_date (some (codes "2025-13")) true
      = .error (invMsg (codes "2025-13")) := by
  refine ⟨?_, ?_, ?_, ?_⟩
  · have h := ((c4_parse_input_date.1) 2025 2 (by omega) (by omega) (by omega)
      (by omega)).2
    rw [show codes "2025-02" = fmtYM 2025 2 from rfl]
    exact h
  · have h := ((c4_parse_input_date.1) 2024 2 (by omega) (by omega) (by omega)
      (by omega)).2
    rw [show codes "2024-02" = fmtYM 2024 2 from rfl]
    exact h
  · have h := ((c4_parse_input_date.1) 2025 12 (by omega) (by omega) (by omega)
      (by omega)).2
    rw [show codes "2025-12" = fmtYM 2025 12 from rfl]
    exact h
  · have h := (c4_parse_input_date.2.2) (codes "2025-13") true (by decide)
      (by rfl)
    rw [show stripCodes (codes "2025-13") = codes "2025-13" from rfl] at h
    exact h

/-- C3 (counterexample): an entry literally dated `9999-12-31` shares the
sort key `date.max` with undated entries, and Python's stable sort keeps the
earlier undated entry in front of it — so not every undated entry is ordered
last. -/
theorem c3_counterexample :
    buildWorkQueue [(codes "u", codes ""), (codes "d", codes "9999-12-31")] none none
      = [(codes "u", codes ""), (codes "d", codes "9999-12-31")] ∧
    parseHumanCodes (codes "") = none ∧
    parseHumanCodes (codes "9999-12-31") = some ⟨9999, 12, 31⟩ ∧
    undatedLastOK
      (buildWorkQueue [(codes "u", codes ""), (codes "d", codes "9999-12-31")]
        none none) = false := by
  refine ⟨rfl, rfl, rfl, rfl⟩

/-- C3 (amended): `buildWorkQueue` keeps an entry iff its text has no
parseable date (speculative inclusion) or its parsed date lies within
`[from, to]` inclusive, an absent bound being unconstrained; and the queue
is sorted ascending by the estimated-date key that maps undated entries to
`date.max` = 9999-12-31 — hence undated entries come after every entry dated
strictly earlier than 9999-12-31, though an entry literally dated
9999-12-31 may still follow one. -/
theorem c3_build_work_queue (items : List Item) (dfrom dto : Option Date) :
    (∀ it : Item, it ∈ buildWorkQueue items dfrom dto ↔
      it ∈ items ∧ (parseHumanCodes it.2 = none ∨
        ∃ dd, parseHumanCodes it.2 = some dd ∧ in_range_day dd dfrom dto = true)) ∧
    List.Sorted queueLE (buildWorkQueue items dfrom dto) := by
  constructor
  · intro it
    unfold buildWorkQueue
    rw [List.Perm.mem_iff (List.perm_insertionSort queueLE _)]
    rw [List.mem_filter]
    constructor
    · rintro ⟨hmem, hkeep⟩
      refine ⟨hmem, ?_⟩
      unfold keepItem at hkeep
      cases hp : parseHumanCodes it.2 with
      | none => exact Or.inl rfl
      | some dd =>
        rw [hp] at hkeep
        exact Or.inr ⟨dd, rfl, hkeep⟩
    · rintro ⟨hmem, hp | ⟨dd, hdd, hin⟩⟩
      · refine ⟨hmem, ?_⟩
        unfold keepItem
        rw [hp]
      · refine ⟨hmem, ?_⟩
        unfold keepItem
        rw [hdd]
        exact hin
  · haveI : IsTotal Item queueLE := ⟨fun a b => Date.le_total_lemma _ _⟩
    haveI : IsTrans Item queueLE := ⟨fun _ _ _ hab hbc => Date.le_trans_lemma hab hbc⟩
    exact List.sorted_insertionSort queueLE _

/-!
### Supporting lemmas for C6: normalisation
-/

theorem lowerC_plain {c : Nat} (h : plainChar c) : lowerC c = c := by
  simp only [plainChar] at h
  unfold lowerC
  rw [if_neg (by omega)]
  iterate 7 rw [if_neg (by omega)]

theorem replC_plain {c : Nat} (h : plainChar c) : replC c = c := by
  simp only [plainChar] at h
  unfold replC
  iterate 6 rw [if_neg (by omega)]

theorem map_id_of {f : Nat → Nat} :
    ∀ {l : List Nat}, (∀ c ∈ l, f c = c) → l.map f = l := by
  intro l
  induction l with
  | nil => intro _; rfl
  | cons a t ih =>
    intro h
    rw [List.map_cons, h a (by simp), ih (fun c hc => h c (by simp [hc]))]

theorem stripCodes_eq_of_ends {cs : List Nat}
    (hh : ∀ c, cs.head? = some c → isSp c = false)
    (hl : ∀ c, cs.getLast? = some c → isSp c = false) :
    stripCodes cs = cs := by
  unfold stripCodes
  have d1 : cs.dropWhile isSp = cs := by
    cases cs with
    | nil => rfl
    | cons a t =>
      rw [List.dropWhile_cons_of_neg]
      simp [hh a rfl]
  rw [d1]
  have d2 : cs.reverse.dropWhile isSp = cs.reverse := by
    cases hr : cs.reverse with
    | nil => rfl
    | cons a t =>
      rw [List.dropWhile_cons_of_neg]
      have : cs.getLast? = some a := by
        rw [← List.head?_reverse, hr]
        rfl
      simp [hl a this]
  rw [d2, List.reverse_reverse]

theorem normTxt_eq_self {cs : List Nat} (hall : ∀ c ∈ cs, plainChar c)
    (hh : ∀ c, cs.head? = some c → isSp c = false)
    (hl : ∀ c, cs.getLast? = some c → isSp c = false) :
    normTxt cs = cs := by
  unfold normTxt
  rw [stripCodes_eq_of_ends hh hl]
  rw [map_id_of (fun c hc => lowerC_plain (hall c hc))]
  rw [map_id_of (fun c hc => replC_plain (hall c hc))]

/-!
### Supporting lemmas for C6: positive matches
-/

theorem searchAt_of_matchAt {α : Type} {m : List Nat → Option α}
    {cs : List Nat} {v : α} (h : m cs = some v) : searchAt m cs = some v := by
  cases cs with
  | nil => exact h
  | cons a t =>
    unfold searchAt
    rw [h]

theorem digits12_exact {d : Nat} (h1 : 1 ≤ d) (h2 : d ≤ 31) {r : List Nat}
    (hr : ∀ c, r.head? = some c → isDig c = false) :
    digits12 (natDigits d ++ r) = some (d, r) := by
  by_cases hd : d < 10
  · simp only [natDigits, if_pos hd, List.cons_append, List.nil_append]
    cases r with
    | nil =>
      simp only [digits12]
      rw [if_pos (by simp only [isDig, Bool.and_eq_true, decide_eq_true_eq]; omega)]
      simp only [Option.some.injEq, Prod.mk.injEq, digitVal]
      exact ⟨by omega, trivial⟩
    | cons b t =>
      simp only [digits12]
      rw [if_pos (by simp only [isDig, Bool.and_eq_true, decide_eq_true_eq]; omega)]
      rw [if_neg (by simp [hr b rfl])]
      simp only [Option.some.injEq, Prod.mk.injEq, digitVal]
      exact ⟨by omega, trivial⟩
  · simp only [natDigits, if_neg hd, List.cons_append, List.nil_append]
    simp only [digits12]
    rw [if_pos (by simp only [isDig, Bool.and_eq_true, decide_eq_true_eq]; omega)]
    rw [if_pos (by simp only [isDig, Bool.and_eq_true, decide_eq_true_eq]; omega)]
    simp only [Option.some.injEq, Prod.mk.injEq, digitVal]
    exact ⟨by omega, trivial⟩

theorem dropWhile_head_neg {p : Nat → Bool} {r : List Nat}
    (hr : ∀ c, r.head? = some c → p c = false) : r.dropWhile p = r := by
  cases r with
  | nil => rfl
  | cons a t =>
    rw [List.dropWhile_cons_of_neg]
    simp [hr a rfl]

theorem spaces1_one {r : List Nat}
    (hr : ∀ c, r.head? = some c → isSp c = false) :
    spaces1 (32 :: r) = some r := by
  simp only [spaces1]
  rw [if_pos (show isSp 32 = true from rfl), dropWhile_head_neg hr]

theorem takeWhile_all_append {p : Nat → Bool} :
    ∀ {l r : List Nat}, (∀ c ∈ l, p c = true) →
      (∀ c, r.head? = some c → p c = false) →
      (l ++ r).takeWhile p = l ∧ (l ++ r).dropWhile p = r := by
  intro l
  induction l with
  | nil =>
    intro r _ hr
    refine ⟨?_, dropWhile_head_neg hr⟩
    cases r with
    | nil => rfl
    | cons a t =>
      rw [List.nil_append, List.takeWhile_cons_of_neg]
      simp [hr a rfl]
  | cons a t ih =>
    intro r hl hr
    have ha : p a = true := hl a (by simp)
    obtain ⟨ht, hd⟩ := ih (fun c hc => hl c (by simp [hc])) hr
    constructor
    · rw [List.cons_append, List.takeWhile_cons_of_pos ha, ht]
    · rw [List.cons_append, List.dropWhile_cons_of_pos ha, hd]

theorem letters1_exact {cls : Nat → Bool} {nm r : List Nat} (h0 : nm ≠ [])
    (hnm : ∀ c ∈ nm, cls c = true)
    (hr : ∀ c, r.head? = some c → cls c = false) :
    letters1 cls (nm ++ r) = some (nm, r) := by
  obtain ⟨ht, hd⟩ := takeWhile_all_append hnm hr
  unfold letters1
  rw [ht, hd]
  cases nm with
  | nil => exact absurd rfl h0
  | cons a t => rfl

theorem digits4_pad4_nil (yr : Nat) (hy : yr ≤ 9999) :
    digits4 (pad4 yr) = some (yr, []) := by
  have := digits4_pad4 yr hy []
  rwa [List.append_nil] at this

theorem litDe_cons (r : List Nat) : litDe (100 :: 101 :: r) = some r := by
  simp [litDe]

theorem head_facts_cons {x : Nat} {r : List Nat} {P : Nat → Bool}
    (hx : P x = false) : ∀ c, (x :: r).head? = some c → P c = false := by
  intro c hc
  simp only [List.head?_cons, Option.some.injEq] at hc
  subst hc
  exact hx

theorem head_append_left {nm r : List Nat} (h0 : nm ≠ []) {P : Nat → Bool}
    (h : ∀ c ∈ nm, P c = false) :
    ∀ c, (nm ++ r).head? = some c → P c = false := by
  cases nm with
  | nil => exact absurd rfl h0
  | cons a t =>
    intro c hc
    simp only [List.cons_append, List.head?_cons, Option.some.injEq] at hc
    subst hc
    exact h a (by simp)

theorem esLetter_not_sp {c : Nat} (h : isEsLetter c = true) : isSp c = false := by
  simp only [isEsLetter, Bool.or_eq_true, Bool.and_eq_true, decide_eq_true_eq] at h
  simp only [isSp, Bool.or_eq_false_iff, decide_eq_false_iff_not]
  omega

theorem esLetter_not_dig {c : Nat} (h : isEsLetter c = true) : isDig c = false := by
  simp only [isEsLetter, Bool.or_eq_true, Bool.and_eq_true, decide_eq_true_eq] at h
  simp only [isDig, Bool.and_eq_false_iff, decide_eq_false_iff_not]
  omega

theorem enLetter_es {c : Nat} (h : isEnLetter c = true) : isEsLetter c = true := by
  simp only [isEnLetter, Bool.and_eq_true, decide_eq_true_eq] at h
  simp only [isEsLetter, Bool.or_eq_true, Bool.and_eq_true, decide_eq_true_eq]
  exact Or.inl h

theorem head_pad4_not_sp (yr : Nat) :
    ∀ c, (pad4 yr).head? = some c → isSp c = false := by
  intro c hc
  simp only [pad4, List.head?_cons, Option.some.injEq] at hc
  subst hc
  exact isSp_digitCode _

theorem head_natDigits_not_sp (d : Nat) (r : List Nat) :
    ∀ c, (natDigits d ++ r).head? = some c → isSp c = false := by
  intro c hc
  by_cases hd : d < 10 <;>
    simp only [natDigits, hd, if_true, if_false,
      List.cons_append, List.nil_append, List.head?_cons,
      Option.some.injEq] at hc <;>
    (subst hc
     simp only [isSp, Bool.or_eq_false_iff, decide_eq_false_iff_not]
     omega)

theorem spaces0_cons_pad4 (yr : Nat) : spaces0 (32 :: pad4 yr) = pad4 yr := by
  unfold spaces0
  rw [List.dropWhile_cons_of_pos (by rfl)]
  exact dropWhile_head_neg (head_pad4_not_sp yr)

theorem matchP1At_rEsLargo (d yr : Nat) (nm : List Nat) (hd1 : 1 ≤ d)
    (hd2 : d ≤ 31) (hy : yr ≤ 9999) (h0 : nm ≠ [])
    (hnm : ∀ c ∈ nm, isEsLetter c = true) :
    matchP1At (rEsLargo d nm yr) = some (d, nm, yr) := by
  have hA : ∀ c, ((32 : Nat) :: 100 :: 101 :: 32 ::
      (nm ++ 32 :: 100 :: 101 :: 32 :: pad4 yr)).head? = some c → isDig c = false :=
    head_facts_cons rfl
  have hB : ∀ c, ((100 : Nat) :: 101 :: 32 ::
      (nm ++ 32 :: 100 :: 101 :: 32 :: pad4 yr)).head? = some c → isSp c = false :=
    head_facts_cons rfl
  have hC : ∀ c, (nm ++ (32 : Nat) :: 100 :: 101 :: 32 :: pad4 yr).head? = some c →
      isSp c = false :=
    head_append_left h0 (fun c hc => esLetter_not_sp (hnm c hc))
  have hD : ∀ c, ((32 : Nat) :: 100 :: 101 :: 32 :: pad4 yr).head? = some c →
      isEsLetter c = false :=
    head_facts_cons rfl
  have hE : ∀ c, ((100 : Nat) :: 101 :: 32 :: pad4 yr).head? = some c →
      isSp c = false :=
    head_facts_cons rfl
  have hG := head_pad4_not_sp yr
  simp only [matchP1At, rEsLargo, p1AfterSp1, digits12_exact hd1 hd2 hA,
    spaces1_one hB, litDe_cons, spaces1_one hC, letters1_exact h0 hnm hD,
    spaces1_one hE, spaces1_one hG, digits4_pad4_nil yr hy]

theorem matchP2At_rCorto (d yr : Nat) (nm : List Nat) (hd1 : 1 ≤ d)
    (hd2 : d ≤ 31) (hy : yr ≤ 9999) (h0 : nm ≠ [])
    (hnm : ∀ c ∈ nm, isEsLetter c = true) :
    matchP2At (rCorto d nm yr) = some (d, nm, yr) := by
  have hA : ∀ c, ((32 : Nat) :: (nm ++ 32 :: pad4 yr)).head? = some c →
      isDig c = false :=
    head_facts_cons rfl
  have hC : ∀ c, (nm ++ (32 : Nat) :: pad4 yr).head? = some c → isSp c = false :=
    head_append_left h0 (fun c hc => esLetter_not_sp (hnm c hc))
  have hD : ∀ c, ((32 : Nat) :: pad4 yr).head? = some c → isEsLetter c = false :=
    head_facts_cons rfl
  have hG := head_pad4_not_sp yr
  simp only [matchP2At, rCorto, digits12_exact hd1 hd2 hA, spaces1_one hC,
    letters1_exact h0 hnm hD, spaces1_one hG, digits4_pad4_nil yr hy]

theorem matchP3At_rEn (d yr : Nat) (nm : List Nat) (hd1 : 1 ≤ d)
    (hd2 : d ≤ 31) (hy : yr ≤ 9999) (h0 : nm ≠ [])
    (hnm : ∀ c ∈ nm, isEnLetter c = true) :
    matchP3At (rEn nm d yr) = some (nm, d, yr) := by
  have hR : ∀ c, ((32 : Nat) :: (natDigits d ++ 44 :: 32 :: pad4 yr)).head? = some c →
      isEnLetter c = false :=
    head_facts_cons rfl
  have hS := head_natDigits_not_sp d ((44 : Nat) :: 32 :: pad4 yr)
  have hT : ∀ c, ((44 : Nat) :: 32 :: pad4 yr).head? = some c → isDig c = false :=
    head_facts_cons rfl
  simp only [matchP3At, rEn, letters1_exact h0 hnm hR, spaces1_one hS,
    digits12_exact hd1 hd2 hT, litN, if_pos, spaces0_cons_pad4,
    digits4_pad4_nil yr hy]

theorem strpYmdDash_rIso (yr mo dy : Nat) (hv : dateValid ⟨yr, mo, dy⟩) :
    strpYmdDash (rIso yr mo dy) = some ⟨yr, mo, dy⟩ := by
  have hb := hv
  obtain ⟨v1, v2, v3, v4, v5, v6⟩ := hb
  simp only at v1 v2 v3 v4 v5 v6
  have hd31 : dy ≤ 31 := by
    have : daysInMonth yr mo ≤ 31 := by
      unfold daysInMonth
      split <;> first | omega | split <;> omega
    omega
  have hD : strpDay (pad2 dy) = some (dy, []) := by
    simpa using strpDay_pad2 dy v5 hd31 []
  unfold strpYmdDash rIso fmtYMD
  simp only [List.append_assoc, digits4_pad4 yr v2, litN_cons,
    strpMonth_pad2 mo v3 v4, hD, List.cons_append, List.nil_append,
    List.append_nil, if_true]
  exact mkValidDate_of_valid hv

/-!
### Supporting lemmas for C6: failed searches
-/

theorem pairsOK_cons_pair {a b : Nat} {r : List Nat}
    (h : pairsOK (a :: b :: r) = true) :
    (isDig a && isSp b) = false ∧ pairsOK (b :: r) = true := by
  simp only [pairsOK, Bool.and_eq_true, Bool.not_eq_true'] at h
  exact h

theorem pairsOK_tail {a : Nat} {l : List Nat} (h : pairsOK (a :: l) = true) :
    pairsOK l = true := by
  cases l with
  | nil => rfl
  | cons b r => exact (pairsOK_cons_pair h).2

theorem pairsOK_cons_of_notdig {a : Nat} {l : List Nat} (ha : isDig a = false)
    (h : pairsOK l = true) : pairsOK (a :: l) = true := by
  cases l with
  | nil => rfl
  | cons b r =>
    simp only [pairsOK, Bool.and_eq_true, Bool.not_eq_true']
    exact ⟨by simp [ha], h⟩

theorem pairsOK_of_noSp : ∀ {l : List Nat}, (∀ c ∈ l, isSp c = false) →
    pairsOK l = true := by
  intro l
  induction l with
  | nil => intro _; rfl
  | cons a t ih =>
    intro h
    cases t with
    | nil => rfl
    | cons b r =>
      simp only [pairsOK, Bool.and_eq_true, Bool.not_eq_true']
      refine ⟨by simp [h b (by simp)], ?_⟩
      exact ih (fun c hc => h c (by simp [List.mem_cons] at hc ⊢; tauto))

theorem pairsOK_of_noDig : ∀ {l : List Nat}, (∀ c ∈ l, isDig c = false) →
    pairsOK l = true := by
  intro l
  induction l with
  | nil => intro _; rfl
  | cons a t ih =>
    intro h
    exact pairsOK_cons_of_notdig (h a (by simp))
      (ih (fun c hc => h c (by simp [hc])))

theorem pairsOK_append : ∀ {l r : List Nat}, pairsOK l = true →
    pairsOK r = true →
    (∀ a b, l.getLast? = some a → r.head? = some b →
      (isDig a && isSp b) = false) →
    pairsOK (l ++ r) = true := by
  intro l
  induction l with
  | nil => intro r _ hr _; exact hr
  | cons a t ih =>
    intro r hl hr hbd
    cases t with
    | nil =>
      cases r with
      | nil => rfl
      | cons b r2 =>
        simp only [List.cons_append, List.nil_append, pairsOK,
          Bool.and_eq_true, Bool.not_eq_true']
        exact ⟨hbd a b rfl rfl, hr⟩
    | cons b t2 =>
      obtain ⟨hp, hrest⟩ := pairsOK_cons_pair hl
      have := ih hrest hr (fun x y hx hy => hbd x y (by
        rw [List.getLast?_cons_cons]
        exact hx) hy)
      simp only [List.cons_append] at this ⊢
      cases ht2 : (t2 ++ r) with
      | nil => simp [pairsOK, hp]
      | cons u v =>
        rw [ht2] at this
        simp only [pairsOK, Bool.and_eq_true, Bool.not_eq_true'] at this ⊢
        exact ⟨hp, this⟩

theorem matchP1At_none_notdig_head {a : Nat} {t : List Nat}
    (ha : isDig a = false) : matchP1At (a :: t) = none := by
  cases t <;> simp [matchP1At, digits12, ha]

theorem matchP2At_none_notdig_head {a : Nat} {t : List Nat}
    (ha : isDig a = false) : matchP2At (a :: t) = none := by
  cases t <;> simp [matchP2At, digits12, ha]

theorem matchP1At_none_of_pairsOK : ∀ {cs : List Nat}, pairsOK cs = true →
    matchP1At cs = none := by
  intro cs h
  match cs with
  | [] => rfl
  | a :: t =>
    by_cases hda : isDig a = true
    · match t, h with
      | [], _ => simp [matchP1At, digits12, hda, spaces1]
      | b :: r, h =>
        by_cases hdb : isDig b = true
        · match r, h with
          | [], _ => simp [matchP1At, digits12, hda, hdb, spaces1]
          | c :: r2, h =>
            have h2 := (pairsOK_cons_pair h).2
            have hsp : isSp c = false := by
              have := (pairsOK_cons_pair h2).1
              simp [hdb] at this
              exact this
            simp [matchP1At, digits12, hda, hdb, spaces1, hsp]
        · have hsp : isSp b = false := by
            have := (pairsOK_cons_pair h).1
            simp [hda] at this
            exact this
          simp [matchP1At, digits12, hda, hdb, spaces1, hsp]
    · exact matchP1At_none_notdig_head (by simpa using hda)

theorem matchP2At_none_of_pairsOK : ∀ {cs : List Nat}, pairsOK cs = true →
    matchP2At cs = none := by
  intro cs h
  match cs with
  | [] => rfl
  | a :: t =>
    by_cases hda : isDig a = true
    · match t, h with
      | [], _ => simp [matchP2At, digits12, hda, spaces1]
      | b :: r, h =>
        by_cases hdb : isDig b = true
        · match r, h with
          | [], _ => simp [matchP2At, digits12, hda, hdb, spaces1]
          | c :: r2, h =>
            have h2 := (pairsOK_cons_pair h).2
            have hsp : isSp c = false := by
              have := (pairsOK_cons_pair h2).1
              simp [hdb] at this
              exact this
            simp [matchP2At, digits12, hda, hdb, spaces1, hsp]
        · have hsp : isSp b = false := by
            have := (pairsOK_cons_pair h).1
            simp [hda] at this
            exact this
          simp [matchP2At, digits12, hda, hdb, spaces1, hsp]
    · exact matchP2At_none_notdig_head (by simpa using hda)

theorem searchP1_none_of_pairsOK : ∀ {cs : List Nat}, pairsOK cs = true →
    searchAt matchP1At cs = none := by
  intro cs
  induction cs with
  | nil => intro h; exact matchP1At_none_of_pairsOK h
  | cons a t ih =>
    intro h
    unfold searchAt
    rw [matchP1At_none_of_pairsOK h]
    exact ih (pairsOK_tail h)

theorem searchP2_none_of_pairsOK : ∀ {cs : List Nat}, pairsOK cs = true →
    searchAt matchP2At cs = none := by
  intro cs
  induction cs with
  | nil => intro h; exact matchP2At_none_of_pairsOK h
  | cons a t ih =>
    intro h
    unfold searchAt
    rw [matchP2At_none_of_pairsOK h]
    exact ih (pairsOK_tail h)

theorem letters1_none_of_head {cls : Nat → Bool} {cs : List Nat}
    (h : ∀ c, cs.head? = some c → cls c = false) : letters1 cls cs = none := by
  cases cs with
  | nil => rfl
  | cons a t =>
    unfold letters1
    rw [List.takeWhile_cons_of_neg (by simp [h a rfl])]

theorem matchP3At_none_of_noletter {cs : List Nat}
    (h : ∀ c ∈ cs, isEnLetter c = false) : matchP3At cs = none := by
  have hh : ∀ c, cs.head? = some c → isEnLetter c = false := by
    intro c hc
    cases cs with
    | nil => exact Option.noConfusion hc
    | cons a t =>
      simp only [List.head?_cons, Option.some.injEq] at hc
      subst hc
      exact h _ (by simp)
  unfold matchP3At
  rw [letters1_none_of_head hh]

theorem searchP3_none_of_noletter : ∀ {cs : List Nat},
    (∀ c ∈ cs, isEnLetter c = false) → searchAt matchP3At cs = none := by
  intro cs
  induction cs with
  | nil => intro h; exact matchP3At_none_of_noletter h
  | cons a t ih =>
    intro h
    unfold searchAt
    rw [matchP3At_none_of_noletter h]
    exact ih (fun c hc => h c (by simp [hc]))

theorem searchAt_cons_none {α : Type} {m : List Nat → Option α} {a : Nat}
    {t : List Nat} (h : m (a :: t) = none) :
    searchAt m (a :: t) = searchAt m t := by
  have e : searchAt m (a :: t)
      = (match m (a :: t) with | some v => some v | none => searchAt m t) := rfl
  rw [e, h]

theorem esLetter_digitCode (k : Nat) : isEsLetter (48 + k % 10) = false := by
  simp only [isEsLetter, Bool.or_eq_false_iff, Bool.and_eq_false_iff,
    decide_eq_false_iff_not]
  omega

theorem head_pad4_not_es (yr : Nat) :
    ∀ c, (pad4 yr).head? = some c → isEsLetter c = false := by
  intro c hc
  simp only [pad4, List.head?_cons, Option.some.injEq] at hc
  subst hc
  exact esLetter_digitCode _

theorem mem_pad4_not_sp (yr : Nat) : ∀ c ∈ pad4 yr, isSp c = false := by
  intro c hc
  simp only [pad4, List.mem_cons, List.not_mem_nil, or_false] at hc
  rcases hc with h | h | h | h <;> subst h <;> exact isSp_digitCode _

/-- Pattern 1 cannot resume after its mandatory `de`: on the remainder of a
short-form rendering (`name ++ " " ++ year`) the piece
`de\s+[a-zñ]+\s+de\s+\d{4}` finds no viable continuation. -/
theorem p1AfterSp1_tail_none {nm : List Nat}
    (hnm : ∀ c ∈ nm, isEsLetter c = true) (yr : Nat) :
    p1AfterSp1 (nm ++ 32 :: pad4 yr) = none := by
  rcases nm with _ | ⟨a, _ | ⟨b, t⟩⟩
  · simp only [List.nil_append, p1AfterSp1, litDe, pad4]
    rw [if_neg (by omega)]
  · simp only [List.cons_append, List.nil_append, p1AfterSp1, litDe, pad4]
    rw [if_neg (by omega)]
  · simp only [List.cons_append, p1AfterSp1, litDe]
    by_cases hab : a = 100 ∧ b = 101
    · rw [if_pos hab]
      rcases t with _ | ⟨c0, t2⟩
      · rw [List.nil_append]
        simp only [spaces1_one (head_pad4_not_sp yr),
          letters1_none_of_head (head_pad4_not_es yr)]
      · have hc0 : isEsLetter c0 = true := hnm c0 (by simp)
        rw [List.cons_append]
        simp only [spaces1, esLetter_not_sp hc0, Bool.false_eq_true, if_false]
    · rw [if_neg hab]

theorem matchP1At_digit_sp_tail_none {x : Nat} (hx : isDig x = true)
    {nm : List Nat} {yr : Nat} (h0 : nm ≠ [])
    (hnm : ∀ c ∈ nm, isEsLetter c = true) :
    matchP1At (x :: 32 :: (nm ++ 32 :: pad4 yr)) = none := by
  have hC : ∀ c, (nm ++ (32 : Nat) :: pad4 yr).head? = some c → isSp c = false :=
    head_append_left h0 (fun c hc => esLetter_not_sp (hnm c hc))
  simp only [matchP1At, digits12, hx, show isDig 32 = false from rfl, if_true,
    if_false, Bool.false_eq_true, spaces1_one hC, p1AfterSp1_tail_none hnm yr]

theorem matchP1At_2digit_sp_tail_none {x1 x2 : Nat} (hx1 : isDig x1 = true)
    (hx2 : isDig x2 = true) {nm : List Nat} {yr : Nat} (h0 : nm ≠ [])
    (hnm : ∀ c ∈ nm, isEsLetter c = true) :
    matchP1At (x1 :: x2 :: 32 :: (nm ++ 32 :: pad4 yr)) = none := by
  have hC : ∀ c, (nm ++ (32 : Nat) :: pad4 yr).head? = some c → isSp c = false :=
    head_append_left h0 (fun c hc => esLetter_not_sp (hnm c hc))
  simp only [matchP1At, digits12, hx1, hx2, if_true, spaces1_one hC,
    p1AfterSp1_tail_none hnm yr]

theorem searchP1_letters_tail_none {yr : Nat} :
    ∀ {l : List Nat}, (∀ c ∈ l, isEsLetter c = true) →
      searchAt matchP1At (l ++ 32 :: pad4 yr) = none := by
  intro l
  induction l with
  | nil =>
    intro _
    rw [List.nil_append,
      searchAt_cons_none (matchP1At_none_notdig_head (show isDig 32 = false from rfl))]
    exact searchP1_none_of_pairsOK (pairsOK_of_noSp (mem_pad4_not_sp yr))
  | cons a t ih =>
    intro h
    rw [List.cons_append,
      searchAt_cons_none (matchP1At_none_notdig_head
        (esLetter_not_dig (h a (by simp))))]
    exact ih (fun c hc => h c (by simp [hc]))

/-- Pattern 1 finds no match anywhere in a short-form rendering. -/
theorem searchP1_rCorto_none (d yr : Nat) (nm : List Nat) (hd1 : 1 ≤ d)
    (hd2 : d ≤ 31) (h0 : nm ≠ []) (hnm : ∀ c ∈ nm, isEsLetter c = true) :
    searchAt matchP1At (rCorto d nm yr) = none := by
  by_cases hd : d < 10
  · rw [show rCorto d nm yr = (48 + d) :: 32 :: (nm ++ 32 :: pad4 yr) from by
      simp [rCorto, natDigits, hd]]
    rw [searchAt_cons_none (matchP1At_digit_sp_tail_none
        (by simp only [isDig, Bool.and_eq_true, decide_eq_true_eq]; omega)
        h0 hnm)]
    rw [searchAt_cons_none (matchP1At_none_notdig_head (show isDig 32 = false from rfl))]
    exact searchP1_letters_tail_none hnm
  · rw [show rCorto d nm yr
        = (48 + d / 10 % 10) :: (48 + d % 10) :: 32 :: (nm ++ 32 :: pad4 yr) from by
      simp [rCorto, natDigits, hd]]
    rw [searchAt_cons_none (matchP1At_2digit_sp_tail_none
        (isDig_digitCode _) (isDig_digitCode _) h0 hnm)]
    rw [searchAt_cons_none (matchP1At_digit_sp_tail_none
        (isDig_digitCode _) h0 hnm)]
    rw [searchAt_cons_none (matchP1At_none_notdig_head (show isDig 32 = false from rfl))]
    exact searchP1_letters_tail_none hnm

/-!
### Supporting lemmas for C6: the renderings are normalisation-stable
-/

theorem getLast?_cons_ne {a : Nat} {l : List Nat} (h : l ≠ []) :
    (a :: l).getLast? = l.getLast? := by
  cases l with
  | nil => exact absurd rfl h
  | cons b t => exact List.getLast?_cons_cons

theorem getLast?_append_ne {l r : List Nat} (h : r ≠ []) :
    (l ++ r).getLast? = r.getLast? := by
  induction l with
  | nil => rfl
  | cons a t ih =>
    rw [List.cons_append, getLast?_cons_ne (by simp [h]), ih]

theorem getLast?_pad4 (n : Nat) : (pad4 n).getLast? = some (48 + n % 10) := by
  simp [pad4]

theorem getLast?_pad2 (n : Nat) : (pad2 n).getLast? = some (48 + n % 10) := by
  simp [pad2]

theorem getLast?_rEsLargo (d yr : Nat) (nm : List Nat) :
    (rEsLargo d nm yr).getLast? = some (48 + yr % 10) := by
  unfold rEsLargo
  rw [getLast?_append_ne (by simp), getLast?_cons_ne (by simp),
    getLast?_cons_ne (by simp), getLast?_cons_ne (by simp),
    getLast?_cons_ne (by simp [pad4]), getLast?_append_ne (by simp [pad4]),
    getLast?_cons_ne (by simp), getLast?_cons_ne (by simp),
    getLast?_cons_ne (by simp [pad4]), getLast?_cons_ne (by simp [pad4])]
  exact getLast?_pad4 yr

theorem getLast?_rCorto (d yr : Nat) (nm : List Nat) :
    (rCorto d nm yr).getLast? = some (48 + yr % 10) := by
  unfold rCorto
  rw [getLast?_append_ne (by simp), getLast?_cons_ne (by simp [pad4]),
    getLast?_append_ne (by simp [pad4]), getLast?_cons_ne (by simp [pad4])]
  exact getLast?_pad4 yr

theorem getLast?_rEn (d yr : Nat) (nm : List Nat) :
    (rEn nm d yr).getLast? = some (48 + yr % 10) := by
  unfold rEn
  rw [getLast?_append_ne (by simp), getLast?_cons_ne (by simp [pad4]),
    getLast?_append_ne (by simp [pad4]), getLast?_cons_ne (by simp [pad4]),
    getLast?_cons_ne (by simp [pad4])]
  exact getLast?_pad4 yr

theorem getLast?_rIso (yr mo dy : Nat) :
    (rIso yr mo dy).getLast? = some (48 + dy % 10) := by
  rw [← List.head?_reverse]
  simp [rIso, fmtYMD, pad4, pad2]

theorem plainChar_digitCode (k : Nat) : plainChar (48 + k % 10) := by
  simp only [plainChar]
  omega

theorem plainChar_natDigits {d c : Nat} (h2 : d ≤ 31) (hc : c ∈ natDigits d) :
    plainChar c := by
  unfold natDigits at hc
  by_cases hd : d < 10
  · rw [if_pos hd] at hc
    simp only [List.mem_cons, List.not_mem_nil, or_false] at hc
    subst hc
    simp only [plainChar]
    omega
  · rw [if_neg hd] at hc
    simp only [List.mem_cons, List.not_mem_nil, or_false] at hc
    rcases hc with h | h <;> subst h <;> exact plainChar_digitCode _

theorem plainChar_pad4 {yr c : Nat} (hc : c ∈ pad4 yr) : plainChar c := by
  simp only [pad4, List.mem_cons, List.not_mem_nil, or_false] at hc
  rcases hc with h | h | h | h <;> subst h <;> exact plainChar_digitCode _

theorem plainChar_pad2 {n c : Nat} (hc : c ∈ pad2 n) : plainChar c := by
  simp only [pad2, List.mem_cons, List.not_mem_nil, or_false] at hc
  rcases hc with h | h <;> subst h <;> exact plainChar_digitCode _

theorem plainChar_esLetter {c : Nat} (h : isEsLetter c = true) : plainChar c := by
  simp only [isEsLetter, Bool.or_eq_true, Bool.and_eq_true, decide_eq_true_eq] at h
  simp only [plainChar]
  omega

theorem mem_natDigits_not_sp (d : Nat) : ∀ c ∈ natDigits d, isSp c = false := by
  intro c hc
  unfold natDigits at hc
  by_cases hd : d < 10
  · rw [if_pos hd] at hc
    simp only [List.mem_cons, List.not_mem_nil, or_false] at hc
    subst hc
    simp only [isSp, Bool.or_eq_false_iff, decide_eq_false_iff_not]
    omega
  · rw [if_neg hd] at hc
    simp only [List.mem_cons, List.not_mem_nil, or_false] at hc
    rcases hc with h | h <;> subst h <;> exact isSp_digitCode _

theorem plain_rEsLargo {d yr : Nat} {nm : List Nat} (hd2 : d ≤ 31)
    (hnm : ∀ c ∈ nm, isEsLetter c = true) :
    ∀ c ∈ rEsLargo d nm yr, plainChar c := by
  intro c hc
  have H : c ∈ natDigits d ∨ c ∈ nm ∨ c ∈ pad4 yr ∨ c = 32 ∨ c = 100 ∨ c = 101 := by
    simp only [rEsLargo, List.mem_append, List.mem_cons] at hc
    tauto
  rcases H with h | h | h | h | h | h
  · exact plainChar_natDigits hd2 h
  · exact plainChar_esLetter (hnm _ h)
  · exact plainChar_pad4 h
  · subst h; simp [plainChar]
  · subst h; simp [plainChar]
  · subst h; simp [plainChar]

theorem plain_rCorto {d yr : Nat} {nm : List Nat} (hd2 : d ≤ 31)
    (hnm : ∀ c ∈ nm, isEsLetter c = true) :
    ∀ c ∈ rCorto d nm yr, plainChar c := by
  intro c hc
  have H : c ∈ natDigits d ∨ c ∈ nm ∨ c ∈ pad4 yr ∨ c = 32 := by
    simp only [rCorto, List.mem_append, List.mem_cons] at hc
    tauto
  rcases H with h | h | h | h
  · exact plainChar_natDigits hd2 h
  · exact plainChar_esLetter (hnm _ h)
  · exact plainChar_pad4 h
  · subst h; simp [plainChar]

theorem plain_rEn {d yr : Nat} {nm : List Nat} (hd2 : d ≤ 31)
    (hnm : ∀ c ∈ nm, isEnLetter c = true) :
    ∀ c ∈ rEn nm d yr, plainChar c := by
  intro c hc
  have H : c ∈ natDigits d ∨ c ∈ nm ∨ c ∈ pad4 yr ∨ c = 32 ∨ c = 44 := by
    simp only [rEn, List.mem_append, List.mem_cons] at hc
    tauto
  rcases H with h | h | h | h | h
  · exact plainChar_natDigits hd2 h
  · exact plainChar_esLetter (enLetter_es (hnm _ h))
  · exact plainChar_pad4 h
  · subst h; simp [plainChar]
  · subst h; simp [plainChar]

theorem plain_rIso {yr mo dy : Nat} : ∀ c ∈ rIso yr mo dy, plainChar c := by
  intro c hc
  have H : c ∈ pad4 yr ∨ c ∈ pad2 mo ∨ c ∈ pad2 dy ∨ c = 45 := by
    simp only [rIso, fmtYMD, List.mem_append, List.mem_cons] at hc
    tauto
  rcases H with h | h | h | h
  · exact plainChar_pad4 h
  · exact plainChar_pad2 h
  · exact plainChar_pad2 h
  · subst h; simp [plainChar]

theorem last_fact_of_digit {cs : List Nat} {k : Nat}
    (h : cs.getLast? = some (48 + k % 10)) :
    ∀ c, cs.getLast? = some c → isSp c = false := by
  intro c hc
  rw [h] at hc
  simp only [Option.some.injEq] at hc
  subst hc
  exact isSp_digitCode _

theorem normTxt_rEsLargo {d yr : Nat} {nm : List Nat} (hd2 : d ≤ 31)
    (hnm : ∀ c ∈ nm, isEsLetter c = true) :
    normTxt (rEsLargo d nm yr) = rEsLargo d nm yr :=
  normTxt_eq_self (plain_rEsLargo hd2 hnm) (head_natDigits_not_sp d _)
    (last_fact_of_digit (getLast?_rEsLargo d yr nm))

theorem normTxt_rCorto {d yr : Nat} {nm : List Nat} (hd2 : d ≤ 31)
    (hnm : ∀ c ∈ nm, isEsLetter c = true) :
    normTxt (rCorto d nm yr) = rCorto d nm yr :=
  normTxt_eq_self (plain_rCorto hd2 hnm) (head_natDigits_not_sp d _)
    (last_fact_of_digit (getLast?_rCorto d yr nm))

theorem normTxt_rEn {d yr : Nat} {nm : List Nat} (hd2 : d ≤ 31) (h0 : nm ≠ [])
    (hnm : ∀ c ∈ nm, isEnLetter c = true) :
    normTxt (rEn nm d yr) = rEn nm d yr :=
  normTxt_eq_self (plain_rEn hd2 hnm)
    (head_append_left h0 (fun c hc => esLetter_not_sp (enLetter_es (hnm c hc))))
    (last_fact_of_digit (getLast?_rEn d yr nm))

theorem head_rIso_not_sp (yr mo dy : Nat) :
    ∀ c, (rIso yr mo dy).head? = some c → isSp c = false := by
  intro c hc
  simp only [rIso, fmtYMD, pad4, List.cons_append, List.head?_cons,
    Option.some.injEq] at hc
  subst hc
  exact isSp_digitCode _

theorem normTxt_rIso (yr mo dy : Nat) :
    normTxt (rIso yr mo dy) = rIso yr mo dy :=
  normTxt_eq_self plain_rIso (head_rIso_not_sp yr mo dy)
    (last_fact_of_digit (getLast?_rIso yr mo dy))

theorem stripCodes_rIso (yr mo dy : Nat) :
    stripCodes (rIso yr mo dy) = rIso yr mo dy :=
  stripCodes_eq_of_ends (head_rIso_not_sp yr mo dy)
    (last_fact_of_digit (getLast?_rIso yr mo dy))

theorem enLetter_not_dig {c : Nat} (h : isEnLetter c = true) : isDig c = false :=
  esLetter_not_dig (enLetter_es h)

theorem pairsOK_rEn {d yr : Nat} {nm : List Nat}
    (hnm : ∀ c ∈ nm, isEnLetter c = true) :
    pairsOK (rEn nm d yr) = true := by
  unfold rEn
  apply pairsOK_append
  · exact pairsOK_of_noDig (fun c hc => enLetter_not_dig (hnm c hc))
  · apply pairsOK_cons_of_notdig (by decide)
    apply pairsOK_append
    · exact pairsOK_of_noSp (mem_natDigits_not_sp d)
    · apply pairsOK_cons_of_notdig (by decide)
      apply pairsOK_cons_of_notdig (by decide)
      exact pairsOK_of_noSp (mem_pad4_not_sp yr)
    · intro a b _ hb
      simp only [List.head?_cons, Option.some.injEq] at hb
      subst hb
      simp [isSp]
  · intro a b ha hb
    simp only [List.head?_cons, Option.some.injEq] at hb
    subst hb
    have : a ∈ nm := List.mem_of_getLast?_eq_some ha
    simp [enLetter_not_dig (hnm a this)]

theorem fmtYMD_no_letter (yr mo dy : Nat) :
    ∀ c ∈ fmtYMD yr mo dy, isEnLetter c = false := by
  intro c hc
  simp only [fmtYMD, pad4, pad2, List.cons_append, List.nil_append,
    List.mem_cons, List.not_mem_nil, or_false] at hc
  rcases hc with h | h | h | h | h | h | h | h | h | h <;> subst h <;>
    (simp only [isEnLetter, Bool.and_eq_false_iff, decide_eq_false_iff_not]
     omega)

/-- C6: the four bilingual text forms describing one calendar date all parse
to the identical date value.  For every valid date (y, m, d), every Spanish
month word resolving to `m` in the lexicon (long form `"{d} de {nm} de {y}"`
and short form `"{d} {nm} {y}"`), every English month word resolving to `m`
(`"{nm} {d}, {y}"`), and the ISO rendering `"{y}-{m}-{d}"`,
`_parse_human_date_to_dateobj` yields exactly the date (y, m, d). -/
theorem c6_four_forms (yr mo dy : Nat) (nmL nmC nmE : List Nat)
    (hv : dateValid ⟨yr, mo, dy⟩)
    (hL0 : nmL ≠ []) (hL1 : ∀ c ∈ nmL, isEsLetter c = true)
    (hL2 : monthsLookup nmL = some mo)
    (hC0 : nmC ≠ []) (hC1 : ∀ c ∈ nmC, isEsLetter c = true)
    (hC2 : monthsLookup nmC = some mo)
    (hE0 : nmE ≠ []) (hE1 : ∀ c ∈ nmE, isEnLetter c = true)
    (hE2 : monthsLookup nmE = some mo) :
    parseHumanCodes (rEsLargo dy nmL yr) = some ⟨yr, mo, dy⟩ ∧
    parseHumanCodes (rCorto dy nmC yr) = some ⟨yr, mo, dy⟩ ∧
    parseHumanCodes (rEn nmE dy yr) = some ⟨yr, mo, dy⟩ ∧
    parseHumanCodes (rIso yr mo dy) = some ⟨yr, mo, dy⟩ := by
  have hb := hv
  obtain ⟨v1, v2, v3, v4, v5, v6⟩ := hb
  simp only at v1 v2 v3 v4 v5 v6
  have hd31 : dy ≤ 31 := by
    have : daysInMonth yr mo ≤ 31 := by
      unfold daysInMonth
      split <;> first | omega | split <;> omega
    omega
  refine ⟨?_, ?_, ?_, ?_⟩
  · simp only [parseHumanCodes, normTxt_rEsLargo hd31 hL1,
      searchAt_of_matchAt (matchP1At_rEsLargo dy yr nmL v5 hd31 v2 hL0 hL1),
      hL2, mkValidDate_of_valid hv]
  · simp only [parseHumanCodes, normTxt_rCorto hd31 hC1,
      searchP1_rCorto_none dy yr nmC v5 hd31 hC0 hC1, parseP2,
      searchAt_of_matchAt (matchP2At_rCorto dy yr nmC v5 hd31 v2 hC0 hC1),
      hC2, mkValidDate_of_valid hv]
  · simp only [parseHumanCodes, normTxt_rEn hd31 hE0 hE1,
      searchP1_none_of_pairsOK (pairsOK_rEn hE1), parseP2,
      searchP2_none_of_pairsOK (pairsOK_rEn hE1), parseP3,
      searchAt_of_matchAt (matchP3At_rEn dy yr nmE v5 hd31 v2 hE0 hE1),
      hE2, mkValidDate_of_valid hv]
  · have hnosp : ∀ c ∈ rIso yr mo dy, isSp c = false := fmtYMD_no_space yr mo dy
    have hnol : ∀ c ∈ rIso yr mo dy, isEnLetter c = false := fmtYMD_no_letter yr mo dy
    simp only [parseHumanCodes, normTxt_rIso, stripCodes_rIso,
      searchP1_none_of_pairsOK (pairsOK_of_noSp hnosp), parseP2,
      searchP2_none_of_pairsOK (pairsOK_of_noSp hnosp), parseP3,
      searchP3_none_of_noletter hnol, isoChain,
      strpYmdDash_rIso yr mo dy hv]

/-- Witness for C6: 25 October 2025 in all four forms. -/
theorem c6_four_forms_witness :
    parseHumanCodes (rEsLargo 25 (codes "octubre") 2025) = some ⟨2025, 10, 25⟩ ∧
    parseHumanCodes (rCorto 25 (codes "oct") 2025) = some ⟨2025, 10, 25⟩ ∧
    parseHumanCodes (rEn (codes "october") 25 2025) = some ⟨2025, 10, 25⟩ ∧
    parseHumanCodes (rIso 2025 10 25) = some ⟨2025, 10, 25⟩ :=
  c6_four_forms 2025 10 25 (codes "octubre") (codes "oct") (codes "october")
    (by decide) (by decide) (by decide) (by decide) (by decide) (by decide)
    (by decide) (by decide) (by decide) (by decide)

end Facturas

